import Mathlib

/-! # Repetier-Firmware: G-code reception core (`gcode.h`)

Shallow embedding of `class GCode` and `class GCodeSource` from
`src/Repetier/gcode.h`.

Machine integers are natural numbers (unsigned) or integers (signed); the two
presence words `params` and `params2` are `uint16_t`, and every operation
that could leave the 16 bit range is reduced modulo `2 ^ 16`.
Single precision fields are kept as their 32 bit IEEE-754 images, since this
header never does arithmetic on them.
-/

namespace Repetier

/-! ## Constants of the header -/

/-- Value of `#define MAX_CMD_SIZE 96`. -/
def MAX_CMD_SIZE : Nat := 96

/-- Value of `#define MAX_DATA_SOURCES 4`. -/
def MAX_DATA_SOURCES : Nat := 4

/-- Identity of a `GCodeSource` object (the value of a `GCodeSource*`). -/
abbrev SourceId := Nat

/-- Values of `enum FirmwareState`. -/
inductive FirmwareState where
  | NotBusy
  | Processing
  | Paused
  | WaitHeater
  | Calibrating
  deriving DecidableEq, Repr

/-! ## The command record -/

/-- Data members of `class GCode` (one parsed command). -/
structure GCode where
  /-- First presence word (`uint16_t params`). -/
  params : Nat
  /-- Second presence word (`uint16_t params2`). -/
  params2 : Nat
  /-- Line number reduced to 16 bit. -/
  N : Nat
  M : Nat
  G : Nat
  X : Nat
  Y : Nat
  Z : Nat
  E : Nat
  F : Nat
  /-- Field `int32_t S`. -/
  S : Int
  /-- Field `int32_t P`. -/
  P : Int
  I : Nat
  J : Nat
  R : Nat
  D : Nat
  C : Nat
  H : Nat
  A : Nat
  B : Nat
  K : Nat
  L : Nat
  O : Nat
  /-- Text payload (`char* text`), `none` for a null pointer. -/
  text : Option (List Nat)
  T : Nat
  internalCommand : Bool
  /-- Originating channel (`GCodeSource* source`). -/
  source : Option SourceId
  deriving DecidableEq, Repr

namespace GCode

/-- A command with all members zero. -/
def blank : GCode :=
  { params := 0, params2 := 0, N := 0, M := 0, G := 0, X := 0, Y := 0, Z := 0,
    E := 0, F := 0, S := 0, P := 0, I := 0, J := 0, R := 0, D := 0, C := 0,
    H := 0, A := 0, B := 0, K := 0, L := 0, O := 0, text := none, T := 0,
    internalCommand := false, source := none }

/-- Both presence words fit their `uint16_t` storage. -/
def wf (g : GCode) : Prop := g.params < 65536 ∧ g.params2 < 65536

def hasM (g : GCode) : Bool := (g.params &&& 2) != 0
def hasN (g : GCode) : Bool := (g.params &&& 1) != 0
def hasG (g : GCode) : Bool := (g.params &&& 4) != 0

/-- Member `setX(char set)`: `params |= 8` or `params &= ~8`. -/
def setX (g : GCode) (set : Int) : GCode :=
  if set ≠ 0 then { g with params := (g.params ||| 8) % 65536 }
  else { g with params := (g.params &&& (65535 - 8)) % 65536 }

def hasX (g : GCode) : Bool := (g.params &&& 8) != 0

/-- Member `setY(char set)`: `params |= 16` or `params &= ~16`. -/
def setY (g : GCode) (set : Int) : GCode :=
  if set ≠ 0 then { g with params := (g.params ||| 16) % 65536 }
  else { g with params := (g.params &&& (65535 - 16)) % 65536 }

def hasY (g : GCode) : Bool := (g.params &&& 16) != 0

/-- Member `setZ(char set)`: `params |= 32` or `params &= ~32`. -/
def setZ (g : GCode) (set : Int) : GCode :=
  if set ≠ 0 then { g with params := (g.params ||| 32) % 65536 }
  else { g with params := (g.params &&& (65535 - 32)) % 65536 }

def hasZ (g : GCode) : Bool := (g.params &&& 32) != 0
def hasNoXYZ (g : GCode) : Bool := (g.params &&& 56) == 0
def hasE (g : GCode) : Bool := (g.params &&& 64) != 0
def hasF (g : GCode) : Bool := (g.params &&& 256) != 0
def hasT (g : GCode) : Bool := (g.params &&& 512) != 0
def hasS (g : GCode) : Bool := (g.params &&& 1024) != 0
def hasP (g : GCode) : Bool := (g.params &&& 2048) != 0
def isV2 (g : GCode) : Bool := (g.params &&& 4096) != 0
def hasString (g : GCode) : Bool := (g.params &&& 32768) != 0
def hasI (g : GCode) : Bool := (g.params2 &&& 1) != 0
def hasJ (g : GCode) : Bool := (g.params2 &&& 2) != 0
def hasR (g : GCode) : Bool := (g.params2 &&& 4) != 0
def hasD (g : GCode) : Bool := (g.params2 &&& 8) != 0
def hasC (g : GCode) : Bool := (g.params2 &&& 16) != 0
def hasH (g : GCode) : Bool := (g.params2 &&& 32) != 0
def hasA (g : GCode) : Bool := (g.params2 &&& 64) != 0
def hasB (g : GCode) : Bool := (g.params2 &&& 128) != 0
def hasK (g : GCode) : Bool := (g.params2 &&& 256) != 0
def hasL (g : GCode) : Bool := (g.params2 &&& 512) != 0
def hasO (g : GCode) : Bool := (g.params2 &&& 1024) != 0

/-- Member `getS(long def)`: `hasS() ? S : def`. -/
def getS (g : GCode) (dflt : Int) : Int := if g.hasS then g.S else dflt

/-- Member `getP(long def)`: `hasP() ? P : def`. -/
def getP (g : GCode) (dflt : Int) : Int := if g.hasP then g.P else dflt

/-- Member `setFormatError()`: `params2 |= 32768`. -/
def setFormatError (g : GCode) : GCode :=
  { g with params2 := (g.params2 ||| 32768) % 65536 }

def hasFormatError (g : GCode) : Bool := (g.params2 &&& 32768) != 0

end GCode

/-- Little-endian value of a list of bits. -/
def ofBits : List Bool → Nat
  | [] => 0
  | b :: bs => Nat.bit b (ofBits bs)

/-! ## Numeric argument parsing (`parseLongValue`, `parseFloatValue`) -/

/-- A C string: the bytes that precede its terminating NUL. -/
abbrev CStr := List Nat

/-- Result of a `strtol`/`strtod` call on `s`: the converted value and the
number of characters consumed, `endPtr - s`. -/
structure Conv (α : Type) where
  value : α
  consumed : Nat
  deriving DecidableEq, Repr

/-- The loop `while (*s == 32) s++;`. -/
def skipSpaces : CStr → CStr
  | [] => []
  | c :: cs => if c = 32 then skipSpaces cs else c :: cs

/-- Member `parseLongValue(char* s)`; the library routine `strtol(_, _, 10)`
is a parameter. The test `s == endPtr` is `consumed = 0`. -/
def parseLongValue (strtol : CStr → Conv Int) (s : CStr) : Int :=
  let r := strtol (skipSpaces s)
  if r.consumed = 0 then 0 else r.value

/-- Member `parseFloatValue(char* s)`; the library routine `strtod` and the
floating point type are parameters. -/
def parseFloatValue {F : Type} [Zero F] (strtod : CStr → Conv F) (s : CStr) : F :=
  let r := strtod (skipSpaces s)
  if r.consumed = 0 then 0 else r.value

/-- C `isspace` in the "C" locale. -/
def isSpaceC (c : Nat) : Bool := c == 32 || (9 ≤ c && c ≤ 13)

/-- C `isdigit`. -/
def isDigitC (c : Nat) : Bool := 48 ≤ c && c ≤ 57

/-- Value of a run of decimal digit characters. -/
def digitsValue (ds : List Nat) : Nat :=
  ds.foldl (fun acc d => acc * 10 + (d - 48)) 0

/-- Largest `long` of the 32 bit targets of the firmware. -/
def LONG_MAX : Int := 2147483647

/-- Smallest `long` of the 32 bit targets of the firmware. -/
def LONG_MIN : Int := -2147483648

/-- Sign character accepted by `strtol`: its length and whether it negates. -/
def signOf : CStr → Bool × Nat
  | 43 :: _ => (false, 1)
  | 45 :: _ => (true, 1)
  | _ => (false, 0)

/-- ISO C `strtol(s, &endPtr, 10)`: white space, an optional sign, then the
longest run of decimal digits; without a digit nothing is converted and
`endPtr = s`; out of range values are clamped. -/
def strtol10 (s : CStr) : Conv Int :=
  let ws := s.takeWhile isSpaceC
  let r1 := s.dropWhile isSpaceC
  let sg := signOf r1
  let ds := (r1.drop sg.2).takeWhile isDigitC
  if ds.isEmpty then { value := 0, consumed := 0 }
  else
    let m : Int := digitsValue ds
    let v : Int := if sg.1 then -m else m
    { value := max LONG_MIN (min LONG_MAX v),
      consumed := ws.length + sg.2 + ds.length }

/-- Decimal part of ISO C `strtod`: white space, an optional sign, digits with
an optional fraction after `.`; the value is kept exact as a rational, and no
character is consumed when there is no digit. Exponents, hexadecimal and
`inf`/`nan` forms are left out. -/
def strtodDec (s : CStr) : Conv Rat :=
  let ws := s.takeWhile isSpaceC
  let r1 := s.dropWhile isSpaceC
  let sg := signOf r1
  let r2 := r1.drop sg.2
  let ip := r2.takeWhile isDigitC
  let r3 := r2.dropWhile isDigitC
  let fp := match r3 with
    | 46 :: t => t.takeWhile isDigitC
    | _ => []
  let dot := match r3 with
    | 46 :: _ => 1
    | _ => 0
  if ip.isEmpty && fp.isEmpty then { value := 0, consumed := 0 }
  else
    let m : Rat := (digitsValue ip : Rat) + (digitsValue fp : Rat) / (10 : Rat) ^ fp.length
    { value := if sg.1 then -m else m,
      consumed := ws.length + sg.2 + ip.length + dot + fp.length }

/-! ## Channels (`class GCodeSource`) -/

/-- Something written to a channel. The wording of resend requests and of
status lines is a host protocol detail, so whole lines are kept symbolic. -/
inductive Output where
  | byte (b : Nat)
  | ack
  | resend (line : Nat)
  | fatal (msg : String)
  | busy (state : FirmwareState)
  deriving DecidableEq, Repr

/-- One channel object: the data members of `class GCodeSource`, and the state
that its pure virtual interface (`isOpen`, `supportsWrite`, `closeOnError`,
`dataAvailable`, `readByte`, `writeByte`, `close`) exposes. -/
structure GCodeSource where
  lastLineNumber : Nat
  wasLastCommandReceivedAsBinary : Bool
  timeOfLastDataPacket : Nat
  /-- Waiting for line to be resend. -1 = no wait. -/
  waitingForResend : Int
  isOpen : Bool
  supportsWrite : Bool
  closeOnError : Bool
  /-- Bytes the transport holds for `readByte`, oldest first. -/
  rx : List Nat
  /-- What `writeByte` has been given, oldest first. -/
  tx : List Output
  deriving DecidableEq, Repr

namespace GCodeSource

/-- State set up by the constructor `GCodeSource()` for a transport with the
given capabilities. -/
def fresh (writable closes : Bool) : GCodeSource :=
  { lastLineNumber := 0, wasLastCommandReceivedAsBinary := false,
    timeOfLastDataPacket := 0, waitingForResend := -1, isOpen := true,
    supportsWrite := writable, closeOnError := closes, rx := [], tx := [] }

/-- Virtual `dataAvailable()`: would a read return a new byte? -/
def dataAvailable (ch : GCodeSource) : Bool := ch.isOpen && !ch.rx.isEmpty

end GCodeSource

/-! ## Source registry (`GCodeSource` statics) -/

/-- Static members `sources`, `writeableSources` and `activeSource` of
`GCodeSource`. The arrays are kept as the lists of their used entries, so
`numSources` and `numWriteSources` are the lengths. -/
structure Registry where
  sources : List SourceId
  writeableSources : List SourceId
  activeSource : Option SourceId
  deriving DecidableEq, Repr

namespace Registry

def numSources (r : Registry) : Nat := r.sources.length

def numWriteSources (r : Registry) : Nat := r.writeableSources.length

/-- No channel registered, none active. -/
def empty : Registry := { sources := [], writeableSources := [], activeSource := none }

end Registry

/-- Errors of the core operations. -/
inductive CoreError where
  | capacity
  | full
  deriving DecidableEq, Repr

/-- Modelled from the spec: the body of `GCodeSource::registerSource` is not
in the header. Section 4.1: register maintains two bounded sets (all channels;
write-capable channels) up to a fixed maximum count; registering beyond
capacity fails with a Capacity error. A channel that is already a member is
not added twice. The header declares the function `void`; the failure is the
`Except` result of the model. -/
def Registry.registerSource (r : Registry) (newSource : SourceId) (writable : Bool) :
    Except CoreError Registry :=
  if newSource ∈ r.sources then .ok r
  else if MAX_DATA_SOURCES ≤ r.numSources then .error CoreError.capacity
  else .ok
    { sources := r.sources ++ [newSource],
      writeableSources :=
        if writable then r.writeableSources ++ [newSource] else r.writeableSources,
      activeSource := r.activeSource }

/-- Modelled from the spec: the body of `GCodeSource::removeSource` is not in
the header. Section 4.1: unregister removes the channel from both sets; when
it was the active channel the arbiter is left without an active channel. -/
def Registry.removeSource (r : Registry) (delSource : SourceId) : Registry :=
  { sources := r.sources.filter (fun s => s != delSource),
    writeableSources := r.writeableSources.filter (fun s => s != delSource),
    activeSource := if r.activeSource = some delSource then none else r.activeSource }

/-- Modelled from the spec: section 4.1, step 2. The order in which channels
are polled: starting just after the previously serviced channel and wrapping
around, that channel itself coming last. -/
def Registry.pollOrder (r : Registry) : List SourceId :=
  match r.activeSource with
  | none => r.sources
  | some a =>
    let i := r.sources.indexOf a
    r.sources.drop (i + 1) ++ r.sources.take (i + 1)

/-! ## Command ring buffer (`GCode` statics) -/

/-- Static members `commandsBuffered`, `bufferReadIndex`, `bufferWriteIndex`
and `bufferLength` of `GCode`. -/
structure Ring where
  commandsBuffered : List GCode
  bufferReadIndex : Nat
  bufferWriteIndex : Nat
  bufferLength : Nat
  deriving DecidableEq, Repr

namespace Ring

/-- The buffer at start-up, for `GCODE_BUFFER_SIZE = size`. -/
def init (size : Nat) : Ring :=
  { commandsBuffered := List.replicate size GCode.blank,
    bufferReadIndex := 0, bufferWriteIndex := 0, bufferLength := 0 }

/-- Modelled from the spec: the body of `GCode::pushCommand` is not in the
header. Sections 3 and 4.6: two indices modulo N plus an occupancy counter;
write is refused when occupancy == N (push returns Full). The header declares
`static void pushCommand()`; the command to store and the refusal are the
argument and the `Except` result of the model. -/
def pushCommand (size : Nat) (r : Ring) (cmd : GCode) : Except CoreError Ring :=
  if size ≤ r.bufferLength then .error CoreError.full
  else .ok
    { commandsBuffered := r.commandsBuffered.set r.bufferWriteIndex cmd,
      bufferReadIndex := r.bufferReadIndex,
      bufferWriteIndex := (r.bufferWriteIndex + 1) % size,
      bufferLength := r.bufferLength + 1 }

/-- Modelled from the spec: the body of `GCode::peekCurrentCommand` is not in
the header. Section 4.6: peek is non-removing; read is refused when
occupancy == 0. -/
def peekCurrentCommand (r : Ring) : Option GCode :=
  if r.bufferLength = 0 then none else r.commandsBuffered[r.bufferReadIndex]?

/-- Modelled from the spec: the body of `GCode::popCurrentCommand` is not in
the header. Section 4.6: pop returns the oldest command, or nothing when
occupancy == 0, and advances the read index modulo N. The header declares
`void popCurrentCommand()`; the command handed out is a result of the
model. -/
def popCurrentCommand (size : Nat) (r : Ring) : Option GCode × Ring :=
  if r.bufferLength = 0 then (none, r)
  else
    (r.commandsBuffered[r.bufferReadIndex]?,
     { commandsBuffered := r.commandsBuffered,
       bufferReadIndex := (r.bufferReadIndex + 1) % size,
       bufferWriteIndex := r.bufferWriteIndex,
       bufferLength := r.bufferLength - 1 })

/-- One call on the ring buffer. -/
inductive Call where
  | push (cmd : GCode)
  | pop
  deriving DecidableEq, Repr

/-- Effect of one call; a refused push leaves the buffer as it is. -/
def call (size : Nat) (r : Ring) : Call → Ring
  | Call.push cmd =>
    match pushCommand size r cmd with
    | .ok r' => r'
    | .error _ => r
  | Call.pop => (popCurrentCommand size r).2

/-- Effect of a sequence of calls. -/
def run (size : Nat) (calls : List Call) (r : Ring) : Ring :=
  calls.foldl (call size) r

/-- The commands that `n` successive pops return, and the buffer left. -/
def popMany (size : Nat) : Nat → Ring → List (Option GCode) × Ring
  | 0, r => ([], r)
  | n + 1, r =>
    let p := popCurrentCommand size r
    let q := popMany size n p.2
    (p.1 :: q.1, q.2)

/-- Section 4.6 read as a queue of capacity `size`: the commands pushed and
not yet popped, in the order of their pushes. -/
def pending (size : Nat) (q : List GCode) : Call → List GCode
  | Call.push cmd => if q.length < size then q ++ [cmd] else q
  | Call.pop => q.tail

end Ring

/-! ## Frame assembly (`GCode` statics) -/

/-- Static members `commandReceiving`, `sendAsBinary`, `commentDetected` and
`binaryCommandSize` of `GCode`. Only the written part of `commandReceiving`
is kept, so `commandsReceivingWritePosition` is its length. Each stored byte
carries the channel it was read from. -/
structure Assembly where
  commandReceiving : List (SourceId × Nat)
  sendAsBinary : Bool
  commentDetected : Bool
  binaryCommandSize : Nat
  deriving DecidableEq, Repr

namespace Assembly

/-- The reset state: nothing received. -/
def empty : Assembly :=
  { commandReceiving := [], sendAsBinary := false, commentDetected := false,
    binaryCommandSize := 0 }

def commandsReceivingWritePosition (a : Assembly) : Nat := a.commandReceiving.length

end Assembly

/-- What a parser returns for one frame. -/
structure Parsed where
  /-- The command record, as far as it could be decoded. -/
  cmd : GCode
  /-- The 32 bit line number of the command (`actLineNumber`). -/
  actLineNumber : Nat
  /-- False when the frame failed to decode (format or checksum error). -/
  ok : Bool
  deriving DecidableEq, Repr

/-- The parts of the firmware that the header only declares or takes from the
build configuration. -/
structure Build where
  /-- The configuration constant `GCODE_BUFFER_SIZE`. -/
  GCODE_BUFFER_SIZE : Nat
  /-- Member `computeBinarySize`, declared only. -/
  computeBinarySize : List Nat → Nat
  /-- Member `parseAscii`, declared only. -/
  parseAscii : List Nat → Parsed
  /-- Member `parseBinary`, declared only. -/
  parseBinary : List Nat → Parsed
  /-- The byte that starts a comment (`;` unless configured otherwise). -/
  commentMarker : Nat
  /-- Number of sequential format errors that is still tolerated. -/
  formatErrorThreshold : Nat
  /-- The non-negative value `waitingForResend` takes while waiting. -/
  resendWait : Nat
  /-- The message stored when format errors escalate. -/
  fatalMessage : String

/-- Number of header bytes that hold the two 16 bit presence bitmasks. -/
def BINARY_HEADER_SIZE : Nat := 4

/-- The line terminator of ASCII framing (newline). -/
def LINE_TERMINATOR : Nat := 10

/-- Outcome of giving bytes to the frame assembler. -/
inductive Fed where
  /-- The frame is not complete; the assembly state to go on with. -/
  | more (a : Assembly)
  /-- A frame is complete: its framing and its stored bytes. -/
  | frame (binary : Bool) (stored : List (SourceId × Nat))
  /-- The frame would not fit the buffer and is discarded. -/
  | overflow
  deriving DecidableEq, Repr

/-- Modelled from the spec: the frame assembler is part of the body of
`GCode::readFromSerial`, which is not in the header. Section 4.2, for one byte
`b` read from channel `src`: the first byte of a frame determines framing (bit
7 set marks binary, else ASCII); ASCII bytes accumulate until the line
terminator, the comment marker starts comment mode in which bytes are consumed
but not stored, and comment mode does not itself complete the frame; in
binary framing the expected length is computed once the presence bitmasks are
there and accumulation continues until that many bytes are received; a frame
that would exceed `MAX_CMD_SIZE` is discarded. -/
def feedByte (cfg : Build) (a : Assembly) (src : SourceId) (b : Nat) : Fed :=
  let first := a.commandReceiving.isEmpty && !a.commentDetected
  let binary := if first then (b &&& 128) != 0 else a.sendAsBinary
  if binary then
    let stored := a.commandReceiving ++ [(src, b)]
    if MAX_CMD_SIZE < stored.length then Fed.overflow
    else
      let size :=
        if stored.length = BINARY_HEADER_SIZE then
          cfg.computeBinarySize (stored.map Prod.snd)
        else a.binaryCommandSize
      if BINARY_HEADER_SIZE ≤ stored.length && stored.length == size then
        Fed.frame true stored
      else
        Fed.more
          { commandReceiving := stored, sendAsBinary := true,
            commentDetected := false, binaryCommandSize := size }
  else if b = LINE_TERMINATOR then Fed.frame false a.commandReceiving
  else if a.commentDetected then Fed.more { a with sendAsBinary := false }
  else if b = cfg.commentMarker then
    Fed.more { a with sendAsBinary := false, commentDetected := true }
  else
    let stored := a.commandReceiving ++ [(src, b)]
    if MAX_CMD_SIZE < stored.length then Fed.overflow
    else Fed.more { a with commandReceiving := stored, sendAsBinary := false }

/-- Modelled from the spec: section 4.2, consume the available bytes of the
active channel one at a time until a frame boundary. Returns the outcome and
the bytes left unread. -/
def assemble (cfg : Build) (src : SourceId) : Assembly → List Nat → Fed × List Nat
  | a, [] => (Fed.more a, [])
  | a, b :: rest =>
    match feedByte cfg a src b with
    | Fed.more a' => assemble cfg src a' rest
    | Fed.frame binary stored => (Fed.frame binary stored, rest)
    | Fed.overflow => (Fed.overflow, rest)

/-! ## The core state -/

/-- The process-wide state of the command-ingestion core: the channel objects
and the static members of `GCodeSource` and `GCode`. The last three fields
are history kept for the statements only: every completed frame with the
origin of each byte, the line number of every command accepted with the
channel it came from, and the commands handed over by `executeString`. -/
structure Core where
  /-- The channel objects, by identity. -/
  chan : SourceId → GCodeSource
  reg : Registry
  asm : Assembly
  ring : Ring
  /-- Number of sequential format errors. -/
  formatErrors : Nat
  /-- Static `fatalErrorMsg`; `none` is the null pointer. -/
  fatalErrorMsg : Option String
  keepAliveInterval : Nat
  /-- When was the last busy signal. -/
  lastBusySignal : Nat
  frames : List (List (SourceId × Nat))
  accepted : List (SourceId × Nat)
  executed : List GCode

namespace Core

/-- The state after start-up: nothing registered, received, queued or
latched. -/
def init (cfg : Build) (chan : SourceId → GCodeSource) (interval : Nat) : Core :=
  { chan := chan, reg := Registry.empty, asm := Assembly.empty,
    ring := Ring.init cfg.GCODE_BUFFER_SIZE, formatErrors := 0,
    fatalErrorMsg := none, keepAliveInterval := interval, lastBusySignal := 0,
    frames := [], accepted := [], executed := [] }

/-- Member `hasFatalError()`: `fatalErrorMsg != NULL`. -/
def hasFatalError (c : Core) : Bool := c.fatalErrorMsg != none

/-- Replace one channel object. -/
def setChan (c : Core) (s : SourceId) (ch : GCodeSource) : Core :=
  { c with chan := fun t => if t = s then ch else c.chan t }

/-- Write one item to channel `s` (`writeByte`). -/
def emit (c : Core) (s : SourceId) (o : Output) : Core :=
  c.setChan s { c.chan s with tx := (c.chan s).tx ++ [o] }

/-- Write one item to each channel of the list that is open. -/
def emitEach (c : Core) (o : Output) : List SourceId → Core
  | [] => c
  | s :: rest =>
    emitEach (if (c.chan s).isOpen then c.emit s o else c) o rest

end Core

namespace Core

/-- Modelled from the spec: the body of `GCodeSource::writeToAll` is not in
the header. Section 4.1: write to every currently open, write-capable channel,
independently of arbitration state. -/
def writeToAll (c : Core) (byte : Nat) : Core :=
  c.emitEach (Output.byte byte) c.reg.writeableSources

/-- Modelled from the spec: the body of `GCodeSource::registerSource` is not
in the header; see `Registry.registerSource`. The channel joins the
write-capable set when its `supportsWrite()` holds. -/
def registerSource (c : Core) (newSource : SourceId) : Except CoreError Core :=
  match c.reg.registerSource newSource (c.chan newSource).supportsWrite with
  | .ok r => .ok { c with reg := r }
  | .error e => .error e

/-- Modelled from the spec: the body of `GCodeSource::removeSource` is not in
the header. Section 4.1: unregistering the active channel mid-frame discards
the in-progress assembly state and resets to idle. -/
def removeSource (c : Core) (delSource : SourceId) : Core :=
  { c with
    reg := c.reg.removeSource delSource,
    asm := if c.reg.activeSource = some delSource then Assembly.empty else c.asm }

/-- Modelled from the spec: the body of `GCodeSource::rotateSource` ("move
active to next source") is not in the header. Section 4.1, steps 2 and 3: the
first channel in polling order with available bytes becomes active; if no
channel has data nothing changes. Section 3: the assembly state is reset
when the active channel changes. -/
def rotateSource (c : Core) : Core :=
  match c.reg.pollOrder.find? (fun s => (c.chan s).dataAvailable) with
  | none => c
  | some s =>
    if c.reg.activeSource = some s then c
    else { c with reg := { c.reg with activeSource := some s }, asm := Assembly.empty }

/-- Modelled from the spec: the body of `GCode::reportFatalError` is not in
the header. Section 4.7: every write-capable channel receives the fatal
message. -/
def reportFatalError (c : Core) : Core :=
  match c.fatalErrorMsg with
  | none => c
  | some msg => c.emitEach (Output.fatal msg) c.reg.writeableSources

/-- Modelled from the spec: section 3 and 4.7, the latch is set once; a
message that is already stored is never replaced. -/
def setFatal (c : Core) (msg : String) : Core :=
  match c.fatalErrorMsg with
  | none => reportFatalError { c with fatalErrorMsg := some msg }
  | some _ => c

/-- Modelled from the spec: the body of `GCode::requestResend` is not in the
header. Section 4.5: if the channel can interactively correct errors, a resend
request naming the expected line number is emitted to that channel and the
assembly state resets; otherwise the channel is closed and removed from the
registry. -/
def requestResend (c : Core) (a : SourceId) : Core :=
  if (c.chan a).closeOnError then
    (c.setChan a { c.chan a with isOpen := false }).removeSource a
  else
    { c.emit a (Output.resend (((c.chan a).lastLineNumber + 1) % 2 ^ 32)) with
      asm := Assembly.empty }

/-- Modelled from the spec: the body of `GCode::pushCommand` is not in the
header; see `Ring.pushCommand`. -/
def pushCommand (cfg : Build) (c : Core) (cmd : GCode) : Except CoreError Core :=
  match Ring.pushCommand cfg.GCODE_BUFFER_SIZE c.ring cmd with
  | .ok r => .ok { c with ring := r }
  | .error e => .error e

/-- Modelled from the spec: the body of `GCode::popCurrentCommand` is not in
the header; see `Ring.popCurrentCommand`. -/
def popCurrentCommand (cfg : Build) (c : Core) : Option GCode × Core :=
  let p := Ring.popCurrentCommand cfg.GCODE_BUFFER_SIZE c.ring
  (p.1, { c with ring := p.2 })

/-- Modelled from the spec: the body of `GCode::checkAndPushCommand` is not in
the header. Section 4.5, for a completed command of channel `a` with 32 bit
line number `line`: the line number must equal `lastLineNumber + 1`
(wraparound-aware); if it is less-or-equal the command is a duplicate,
acknowledged but not queued; if it is greater the channel enters waiting for
resend and the command is not queued, and the resend path is taken; on
success the command is queued, `lastLineNumber` advances and the waiting
indicator clears. A command without a line number is queued unchecked. A
push refused by the full ring buffer accepts nothing. -/
def checkAndPushCommand (cfg : Build) (c : Core) (a : SourceId) (binary : Bool)
    (cmd : GCode) (line : Nat) : Core :=
  if cmd.hasN then
    if line = ((c.chan a).lastLineNumber + 1) % 2 ^ 32 then
      match Ring.pushCommand cfg.GCODE_BUFFER_SIZE c.ring cmd with
      | .error _ => c
      | .ok r =>
        { c.setChan a
            { c.chan a with
              lastLineNumber := line, waitingForResend := -1,
              wasLastCommandReceivedAsBinary := binary } with
          ring := r, accepted := c.accepted ++ [(a, line)] }
    else if line ≤ (c.chan a).lastLineNumber then c.emit a Output.ack
    else
      requestResend
        (c.setChan a { c.chan a with waitingForResend := (cfg.resendWait : Int) }) a
  else
    match Ring.pushCommand cfg.GCODE_BUFFER_SIZE c.ring cmd with
    | .error _ => c
    | .ok r => { c with ring := r }

/-- Modelled from the spec: what `GCode::readFromSerial` does with a complete
frame is not in the header. Sections 4.3 to 4.5: the parser matching the
framing turns the frame into a command of channel `a`. A binary frame that
fails to decode is rejected and takes the resend path. An ASCII line that
fails to decode gets the format-error flag, increments the sequential format
error counter and is still passed on for queueing; when the counter crosses
the threshold the fatal error latch is set. A frame that decodes resets the
counter. -/
def completeFrame (cfg : Build) (c : Core) (a : SourceId) (binary : Bool)
    (stored : List (SourceId × Nat)) : Core :=
  let raw := stored.map Prod.snd
  if binary then
    let p := cfg.parseBinary raw
    if p.ok then
      checkAndPushCommand cfg { c with formatErrors := 0 } a true
        { p.cmd with source := some a, internalCommand := false } p.actLineNumber
    else requestResend c a
  else
    let p := cfg.parseAscii raw
    if p.ok then
      checkAndPushCommand cfg { c with formatErrors := 0 } a false
        { p.cmd with source := some a, internalCommand := false } p.actLineNumber
    else
      let c1 :=
        checkAndPushCommand cfg { c with formatErrors := (c.formatErrors + 1) % 256 } a false
          (GCode.setFormatError { p.cmd with source := some a, internalCommand := false })
          p.actLineNumber
      if cfg.formatErrorThreshold < c1.formatErrors then c1.setFatal cfg.fatalMessage
      else c1

/-- Modelled from the spec: arbitration is part of the body of
`GCode::readFromSerial`, which is not in the header. Section 4.1, steps 1 and
2: if the assembly buffer is non-empty only the channel that owns it is
polled (the pause rule); otherwise the channels are polled round robin and the
first one with available bytes becomes active. -/
def arbitrate (c : Core) : Core :=
  if c.asm.commandReceiving.isEmpty then c.rotateSource else c

/-- Modelled from the spec: reading the active channel is part of the body of
`GCode::readFromSerial`, which is not in the header. Section 4.2: the
available bytes of the active channel `a` are consumed up to a frame boundary;
the assembly state is reset whenever a frame completes or is discarded; a
frame that overflows the buffer raises a format error against the channel. -/
def pull (cfg : Build) (c : Core) (a : SourceId) : Core :=
  let r := assemble cfg a c.asm (c.chan a).rx
  let c2 := c.setChan a { c.chan a with rx := r.2 }
  match r.1 with
  | Fed.more asm => { c2 with asm := asm }
  | Fed.frame binary stored =>
    completeFrame cfg
      { c2 with asm := Assembly.empty, frames := c2.frames ++ [stored] } a binary stored
  | Fed.overflow => requestResend { c2 with asm := Assembly.empty } a

/-- Modelled from the spec: the body of `GCode::readFromSerial` is not in the
header. It is the step operation of section 4.1: the fatal error latch is
checked at the top (section 5); a full ring buffer stops the pulling of new
frames (section 4.6); after arbitration the active channel is read if it has
data; if no channel has data the step is a no-op. -/
def readFromSerial (cfg : Build) (c : Core) : Core :=
  if c.hasFatalError then c
  else if cfg.GCODE_BUFFER_SIZE ≤ c.ring.bufferLength then c
  else
    match c.arbitrate.reg.activeSource with
    | none => c.arbitrate
    | some a =>
      if (c.arbitrate.chan a).dataAvailable then c.arbitrate.pull cfg a else c.arbitrate

/-- Modelled from the spec: the body of `GCode::executeString` is not in the
header. Sections 1 and 3: a command synthesized inside the firmware (an
in-memory macro line) is parsed as ASCII, marked as internal, and handed to
the executor directly; it belongs to no channel. -/
def executeString (cfg : Build) (c : Core) (cmd : List Nat) : Core :=
  let p := cfg.parseAscii cmd
  let g : GCode := { p.cmd with source := none, internalCommand := true }
  { c with executed := c.executed ++ [if p.ok then g else g.setFormatError] }

/-- Modelled from the spec: the body of `GCode::keepAlive` is not in the
header. Section 4.7: in any non-idle state, if more than `keepAliveInterval`
has elapsed since the last status emission, a status line is written to every
open write-capable channel except the one that originated the command being
processed. Times are `millis_t` values (32 bit, wrapping). -/
def keepAlive (c : Core) (state : FirmwareState) (now : Nat) : Core :=
  if state = FirmwareState.NotBusy then c
  else if c.keepAliveInterval < (now + 2 ^ 32 - c.lastBusySignal % 2 ^ 32) % 2 ^ 32 then
    let origin := (Ring.peekCurrentCommand c.ring).bind (fun g => g.source)
    let targets := c.reg.writeableSources.filter (fun s => some s != origin)
    { c.emitEach (Output.busy state) targets with lastBusySignal := now % 2 ^ 32 }
  else c

/-- The transport of channel `s` receives bytes (outside the core). -/
def deliver (c : Core) (s : SourceId) (data : List Nat) : Core :=
  c.setChan s { c.chan s with rx := (c.chan s).rx ++ data }

end Core

/-- The operations of the core, and the arrival of bytes at a channel. -/
inductive Op where
  | deliver (s : SourceId) (data : List Nat)
  | registerSource (s : SourceId)
  | removeSource (s : SourceId)
  | rotateSource
  | readFromSerial
  | pushCommand (cmd : GCode)
  | popCurrentCommand
  | executeString (cmd : List Nat)
  | keepAlive (state : FirmwareState) (now : Nat)
  | reportFatalError
  | writeToAll (byte : Nat)

/-- Effect of one operation; an operation that fails leaves the state as it
is. -/
def Core.apply (cfg : Build) (c : Core) : Op → Core
  | Op.deliver s data => c.deliver s data
  | Op.registerSource s =>
    match c.registerSource s with
    | .ok c' => c'
    | .error _ => c
  | Op.removeSource s => c.removeSource s
  | Op.rotateSource => c.rotateSource
  | Op.readFromSerial => c.readFromSerial cfg
  | Op.pushCommand cmd =>
    match c.pushCommand cfg cmd with
    | .ok c' => c'
    | .error _ => c
  | Op.popCurrentCommand => (c.popCurrentCommand cfg).2
  | Op.executeString cmd => c.executeString cfg cmd
  | Op.keepAlive state now => c.keepAlive state now
  | Op.reportFatalError => c.reportFatalError
  | Op.writeToAll byte => c.writeToAll byte

/-- Effect of a sequence of operations. -/
def Core.run (cfg : Build) (ops : List Op) (c : Core) : Core :=
  ops.foldl (Core.apply cfg) c

/-- Line numbers accepted from channel `s`, oldest first. -/
def acceptedFrom (s : SourceId) (log : List (SourceId × Nat)) : List Nat :=
  (log.filter (fun p => p.1 == s)).map Prod.snd

/-- The ring buffer `r` holds exactly the queue `q`: the slot array has `size`
entries, the occupancy is the length of `q`, the write index is the read index
advanced by the occupancy, and the slots from the read index on hold the
commands of `q` in order. -/
def Ring.Rep (size : Nat) (r : Ring) (q : List GCode) : Prop :=
  r.commandsBuffered.length = size ∧
  r.bufferLength = q.length ∧
  q.length ≤ size ∧
  (0 < size → r.bufferReadIndex < size) ∧
  r.bufferWriteIndex = (r.bufferReadIndex + q.length) % size ∧
  ∀ k, k < q.length → r.commandsBuffered[(r.bufferReadIndex + k) % size]? = q[k]?

/-- The bounds the registry keeps: at most `MAX_DATA_SOURCES` channels, and
the write-capable entries are a selection of the registered ones in the same
order. -/
def Registry.Inv (r : Registry) : Prop :=
  r.numSources ≤ MAX_DATA_SOURCES ∧ List.Sublist r.writeableSources r.sources

/-! ## A small configuration for evaluation

The parsers and the build constants are parameters of the core (`Build`).
The configuration below fixes them, so that the operations can be run on
concrete inputs: an ASCII reader for the integer fields N, G, M, S, P and T,
no binary decoder, a ring buffer of four commands. -/

/-- Split a line at its space characters (byte 32). -/
def sampleTokens (line : List Nat) : List (List Nat) :=
  line.foldr
    (fun c acc =>
      if c = 32 then [] :: acc
      else
        match acc with
        | [] => [[c]]
        | t :: ts => (c :: t) :: ts)
    [[]]

/-- Store one `<letter><number>` token: N (78), G (71), M (77), S (83), P (80)
and T (84) are read with `parseLongValue`, other letters are ignored; text
after the letter that is not a number marks the line as not decodable. -/
def sampleField (p : Parsed) (tok : List Nat) : Parsed :=
  match tok with
  | [] => p
  | letter :: arg =>
    let v := parseLongValue strtol10 arg
    let bad := !arg.isEmpty && (strtol10 arg).consumed != arg.length
    let q : Parsed := if bad then { p with ok := false } else p
    if letter = 78 then
      { q with
        actLineNumber := v.toNat % 2 ^ 32,
        cmd := { q.cmd with N := v.toNat % 65536, params := q.cmd.params ||| 1 } }
    else if letter = 77 then
      { q with cmd := { q.cmd with M := v.toNat % 65536, params := q.cmd.params ||| 2 } }
    else if letter = 71 then
      { q with cmd := { q.cmd with G := v.toNat % 65536, params := q.cmd.params ||| 4 } }
    else if letter = 84 then
      { q with cmd := { q.cmd with T := v.toNat % 256, params := q.cmd.params ||| 512 } }
    else if letter = 83 then
      { q with cmd := { q.cmd with S := v, params := q.cmd.params ||| 1024 } }
    else if letter = 80 then
      { q with cmd := { q.cmd with P := v, params := q.cmd.params ||| 2048 } }
    else q

/-- The ASCII reader of the sample configuration. -/
def sampleParseAscii (line : List Nat) : Parsed :=
  (sampleTokens line).foldl sampleField
    { cmd := GCode.blank, actLineNumber := 0, ok := true }

/-- The sample configuration. -/
def sampleBuild : Build :=
  { GCODE_BUFFER_SIZE := 4,
    computeBinarySize := fun _ => 8,
    parseAscii := sampleParseAscii,
    parseBinary := fun _ => { cmd := GCode.blank, actLineNumber := 0, ok := false },
    commentMarker := 59,
    formatErrorThreshold := 2,
    resendWait := 14,
    fatalMessage := "too many format errors" }

/-- Channels of the sample configuration: even identities are serial ports
(writable, able to resend), odd ones are storage (read only, closed on
error). -/
def sampleChan (s : SourceId) : GCodeSource :=
  GCodeSource.fresh (s % 2 == 0) (s % 2 == 1)

/-- The sample core after start-up. -/
def sampleInit : Core := Core.init sampleBuild sampleChan 2000

/-- The sample core after channel 0 has sent three lines `Gx`, none of which
decodes: one more than the threshold of the sample configuration. -/
def sampleLatched : Core :=
  Core.run sampleBuild
    [Op.registerSource 0,
     Op.deliver 0 [71, 120, 10, 71, 120, 10, 71, 120, 10],
     Op.readFromSerial, Op.readFromSerial, Op.readFromSerial]
    sampleInit

/-- Every byte stored by an assembler outcome was read from channel `src`. -/
def Fed.originIs (src : SourceId) : Fed → Prop
  | Fed.more a => ∀ p ∈ a.commandReceiving, p.1 = src
  | Fed.frame _ stored => ∀ p ∈ stored, p.1 = src
  | Fed.overflow => True

/-- The pause-rule invariant: every byte in the assembly buffer was read from
the active channel, every completed frame holds bytes of one channel only,
and the active channel is a registered one. -/
def Core.PauseInv (c : Core) : Prop :=
  (∀ p ∈ c.asm.commandReceiving, c.reg.activeSource = some p.1) ∧
  (∀ f ∈ c.frames, ∀ p ∈ f, ∀ q ∈ f, p.1 = q.1) ∧
  (∀ a, c.reg.activeSource = some a → a ∈ c.reg.sources)

/-- The line-number invariant relative to the channel objects `chan0` at
start-up: for every channel the `i`-th accepted line number is the initial
`lastLineNumber` plus `i + 1`, and `lastLineNumber` is the initial one plus
the number of accepted commands (all modulo `2 ^ 32`). -/
def Core.LineInv (chan0 : SourceId → GCodeSource) (c : Core) : Prop :=
  ∀ s : SourceId,
    (c.chan s).lastLineNumber % 2 ^ 32 =
      ((chan0 s).lastLineNumber + (acceptedFrom s c.accepted).length) % 2 ^ 32 ∧
    ∀ i, i < (acceptedFrom s c.accepted).length →
      (acceptedFrom s c.accepted)[i]? = some (((chan0 s).lastLineNumber + i + 1) % 2 ^ 32)

/-- The scenario of section 8 on the sample core: channel 0 sends `N1 G1`,
then `N3 G1` (a gap), then `N2 G1`, `N3 G1`, and `N3` once more; a step
follows every line. -/
def sampleResendOps : List Op :=
  [Op.registerSource 0, Op.registerSource 1,
   Op.deliver 0 [78, 49, 32, 71, 49, 10], Op.readFromSerial,
   Op.deliver 0 [78, 51, 32, 71, 49, 10], Op.readFromSerial,
   Op.deliver 0 [78, 50, 32, 71, 49, 10], Op.readFromSerial,
   Op.deliver 0 [78, 51, 32, 71, 49, 10, 78, 51, 10], Op.readFromSerial, Op.readFromSerial]

end Repetier

namespace Repetier

/-- The members of a command record other than the two presence words. -/
def GCode.payload (g : GCode) : GCode := { g with params := 0, params2 := 0 }

/-- A command record with the binary marker, the V2 bit, the string bit and
some field bits set, used to evaluate the mutators. -/
def sampleCommand : GCode :=
  { GCode.blank with params := 37002, params2 := 5, S := 7, P := 9 }

end Repetier

namespace Repetier

/-- The number that a run of decimal digit characters denotes, most
significant digit first. -/
def decimalValue (digits : List Nat) : Nat :=
  Nat.ofDigits 10 ((digits.map (fun d => d - 48)).reverse)

/-- The number that an optional sign (`+` is 43, `-` is 45) followed by a run
of decimal digit characters denotes. -/
def signedDecimalValue (sign digits : List Nat) : Int :=
  if sign = [45] then -(decimalValue digits : Int) else (decimalValue digits : Int)

end Repetier

/-! # Properties -/

namespace Repetier

/-! ## Bit level facts -/

theorem and_pow_ne_zero (n i : Nat) : ((n &&& 2 ^ i) != 0) = n.testBit i := by
  rw [Nat.and_two_pow]
  cases n.testBit i <;> simp

theorem xor_and_disjoint (p f m : Nat) (h : f &&& m = 0) : (p ^^^ f) &&& m = p &&& m := by
  rw [Nat.and_xor_distrib_right, h, Nat.xor_zero]

theorem ofBits_lt (bs : List Bool) : ofBits bs < 2 ^ bs.length := by
  induction bs with
  | nil => simp [ofBits]
  | cons b bs ih =>
    have h : ofBits (b :: bs) = 2 * ofBits bs + b.toNat := by
      simp [ofBits, Nat.bit_val]
    rw [h, List.length_cons, pow_succ]
    cases b <;> simp <;> omega

theorem ofBits16_lt (b0 b1 b2 b3 b4 b5 b6 b7 b8 b9 b10 b11 b12 b13 b14 b15 : Bool) :
    ofBits [b0, b1, b2, b3, b4, b5, b6, b7, b8, b9, b10, b11, b12, b13, b14, b15] < 65536 := by
  have h := ofBits_lt [b0, b1, b2, b3, b4, b5, b6, b7, b8, b9, b10, b11, b12, b13, b14, b15]
  have hl : [b0, b1, b2, b3, b4, b5, b6, b7, b8, b9, b10, b11, b12, b13, b14,
      b15].length = 16 := rfl
  rw [hl] at h
  have hp : (2 : Nat) ^ 16 = 65536 := by norm_num
  rw [hp] at h
  exact h

theorem testBit_ofBits (bs : List Bool) (i : Nat) :
    (ofBits bs).testBit i = bs.getD i false := by
  induction bs generalizing i with
  | nil => simp [ofBits]
  | cons b bs ih =>
    cases i with
    | zero => simp [ofBits]
    | succ i => simp [ofBits, Nat.testBit_bit_succ, ih]

/-! ## Presence accessors -/

/-- C1: `getS(def)` is the stored `S` when `params & 1024` is set and `def`
otherwise, `getP(def)` is the stored `P` when `params & 2048` is set and `def`
otherwise; with the presence bit clear the result is `def` whatever value is
stored in `S` (resp. `P`). -/
theorem getS_getP_presence (g : GCode) (dflt : Int) :
    g.getS dflt = (if g.params &&& 1024 ≠ 0 then g.S else dflt) ∧
    g.getP dflt = (if g.params &&& 2048 ≠ 0 then g.P else dflt) ∧
    (∀ v : Int, g.params &&& 1024 = 0 → GCode.getS { g with S := v } dflt = dflt) ∧
    (∀ v : Int, g.params &&& 2048 = 0 → GCode.getP { g with P := v } dflt = dflt) := by
  refine ⟨?_, ?_, ?_, ?_⟩
  · simp [GCode.getS, GCode.hasS]
  · simp [GCode.getP, GCode.hasP]
  · intro v h
    simp [GCode.getS, GCode.hasS, h]
  · intro v h
    simp [GCode.getP, GCode.hasP, h]

theorem accessor_bits (g : GCode) :
    (g.hasN = g.params.testBit 0 ∧ g.hasM = g.params.testBit 1 ∧
      g.hasG = g.params.testBit 2 ∧ g.hasX = g.params.testBit 3 ∧
      g.hasY = g.params.testBit 4 ∧ g.hasZ = g.params.testBit 5 ∧
      g.hasE = g.params.testBit 6 ∧ g.hasF = g.params.testBit 8 ∧
      g.hasT = g.params.testBit 9 ∧ g.hasS = g.params.testBit 10 ∧
      g.hasP = g.params.testBit 11 ∧ g.isV2 = g.params.testBit 12 ∧
      g.hasString = g.params.testBit 15) ∧
    (g.hasI = g.params2.testBit 0 ∧ g.hasJ = g.params2.testBit 1 ∧
      g.hasR = g.params2.testBit 2 ∧ g.hasD = g.params2.testBit 3 ∧
      g.hasC = g.params2.testBit 4 ∧ g.hasH = g.params2.testBit 5 ∧
      g.hasA = g.params2.testBit 6 ∧ g.hasB = g.params2.testBit 7 ∧
      g.hasK = g.params2.testBit 8 ∧ g.hasL = g.params2.testBit 9 ∧
      g.hasO = g.params2.testBit 10 ∧ g.hasFormatError = g.params2.testBit 15) := by
  refine ⟨⟨?_, ?_, ?_, ?_, ?_, ?_, ?_, ?_, ?_, ?_, ?_, ?_, ?_⟩,
    ⟨?_, ?_, ?_, ?_, ?_, ?_, ?_, ?_, ?_, ?_, ?_, ?_⟩⟩
  · exact and_pow_ne_zero g.params 0
  · exact and_pow_ne_zero g.params 1
  · exact and_pow_ne_zero g.params 2
  · exact and_pow_ne_zero g.params 3
  · exact and_pow_ne_zero g.params 4
  · exact and_pow_ne_zero g.params 5
  · exact and_pow_ne_zero g.params 6
  · exact and_pow_ne_zero g.params 8
  · exact and_pow_ne_zero g.params 9
  · exact and_pow_ne_zero g.params 10
  · exact and_pow_ne_zero g.params 11
  · exact and_pow_ne_zero g.params 12
  · exact and_pow_ne_zero g.params 15
  · exact and_pow_ne_zero g.params2 0
  · exact and_pow_ne_zero g.params2 1
  · exact and_pow_ne_zero g.params2 2
  · exact and_pow_ne_zero g.params2 3
  · exact and_pow_ne_zero g.params2 4
  · exact and_pow_ne_zero g.params2 5
  · exact and_pow_ne_zero g.params2 6
  · exact and_pow_ne_zero g.params2 7
  · exact and_pow_ne_zero g.params2 8
  · exact and_pow_ne_zero g.params2 9
  · exact and_pow_ne_zero g.params2 10
  · exact and_pow_ne_zero g.params2 15

/-- C2: each of the 25 flag accessors reads exactly one bit of its word
(`params`: N 0, M 1, G 2, X 3, Y 4, Z 5, E 6, F 8, T 9, S 10, P 11, V2 12,
string 15; `params2`: I 0, J 1, R 2, D 3, C 4, H 5, A 6, B 7, K 8, L 9, O 10,
format error 15), so every field X, Y, Z, E, F, I, J, R, D, C, H, A, B, K, L,
O, S, P, T has an accessor of its own; and the bits are pairwise different:
every assignment of true/false to the 25 accessors is returned by the
accessors on some pair of 16 bit words. -/
theorem presence_accessors_independent :
    (∀ g : GCode,
      (g.hasN = g.params.testBit 0 ∧ g.hasM = g.params.testBit 1 ∧
        g.hasG = g.params.testBit 2 ∧ g.hasX = g.params.testBit 3 ∧
        g.hasY = g.params.testBit 4 ∧ g.hasZ = g.params.testBit 5 ∧
        g.hasE = g.params.testBit 6 ∧ g.hasF = g.params.testBit 8 ∧
        g.hasT = g.params.testBit 9 ∧ g.hasS = g.params.testBit 10 ∧
        g.hasP = g.params.testBit 11 ∧ g.isV2 = g.params.testBit 12 ∧
        g.hasString = g.params.testBit 15) ∧
      (g.hasI = g.params2.testBit 0 ∧ g.hasJ = g.params2.testBit 1 ∧
        g.hasR = g.params2.testBit 2 ∧ g.hasD = g.params2.testBit 3 ∧
        g.hasC = g.params2.testBit 4 ∧ g.hasH = g.params2.testBit 5 ∧
        g.hasA = g.params2.testBit 6 ∧ g.hasB = g.params2.testBit 7 ∧
        g.hasK = g.params2.testBit 8 ∧ g.hasL = g.params2.testBit 9 ∧
        g.hasO = g.params2.testBit 10 ∧ g.hasFormatError = g.params2.testBit 15)) ∧
    (∀ bN bM bG bX bY bZ bE bF bT bS bP bV bStr bI bJ bR bD bC bH bA bB bK bL bO bErr : Bool,
      ∃ g : GCode, g.wf ∧
        g.hasN = bN ∧ g.hasM = bM ∧ g.hasG = bG ∧ g.hasX = bX ∧ g.hasY = bY ∧
        g.hasZ = bZ ∧ g.hasE = bE ∧ g.hasF = bF ∧ g.hasT = bT ∧ g.hasS = bS ∧
        g.hasP = bP ∧ g.isV2 = bV ∧ g.hasString = bStr ∧
        g.hasI = bI ∧ g.hasJ = bJ ∧ g.hasR = bR ∧ g.hasD = bD ∧ g.hasC = bC ∧
        g.hasH = bH ∧ g.hasA = bA ∧ g.hasB = bB ∧ g.hasK = bK ∧ g.hasL = bL ∧
        g.hasO = bO ∧ g.hasFormatError = bErr) := by
  refine ⟨accessor_bits, ?_⟩
  intro bN bM bG bX bY bZ bE bF bT bS bP bV bStr bI bJ bR bD bC bH bA bB bK bL bO bErr
  refine ⟨{ GCode.blank with
    params := ofBits [bN, bM, bG, bX, bY, bZ, bE, false, bF, bT, bS, bP, bV, false, false, bStr],
    params2 := ofBits [bI, bJ, bR, bD, bC, bH, bA, bB, bK, bL, bO, false, false, false,
      false, bErr] }, ⟨?_, ?_⟩, ?_⟩
  · exact ofBits16_lt _ _ _ _ _ _ _ _ _ _ _ _ _ _ _ _
  · exact ofBits16_lt _ _ _ _ _ _ _ _ _ _ _ _ _ _ _ _
  · simp only [accessor_bits, testBit_ofBits]
    simp

/-- C4: flipping bit 7 (value 128) of `params` changes the result of no
accessor: not of `hasN`, `hasM`, `hasG`, `hasX`, `hasY`, `hasZ`, `hasNoXYZ`,
`hasE`, `hasF`, `hasT`, `hasS`, `hasP`, `isV2`, `hasString`, `getS`, `getP`,
and not of any accessor of `params2`; the flipped word still fits 16 bits. -/
theorem binary_marker_bit_unobserved (g : GCode) (dflt : Int) :
    (GCode.hasN { g with params := g.params ^^^ 128 } = g.hasN ∧
      GCode.hasM { g with params := g.params ^^^ 128 } = g.hasM ∧
      GCode.hasG { g with params := g.params ^^^ 128 } = g.hasG ∧
      GCode.hasX { g with params := g.params ^^^ 128 } = g.hasX ∧
      GCode.hasY { g with params := g.params ^^^ 128 } = g.hasY ∧
      GCode.hasZ { g with params := g.params ^^^ 128 } = g.hasZ ∧
      GCode.hasNoXYZ { g with params := g.params ^^^ 128 } = g.hasNoXYZ ∧
      GCode.hasE { g with params := g.params ^^^ 128 } = g.hasE ∧
      GCode.hasF { g with params := g.params ^^^ 128 } = g.hasF ∧
      GCode.hasT { g with params := g.params ^^^ 128 } = g.hasT ∧
      GCode.hasS { g with params := g.params ^^^ 128 } = g.hasS ∧
      GCode.hasP { g with params := g.params ^^^ 128 } = g.hasP ∧
      GCode.isV2 { g with params := g.params ^^^ 128 } = g.isV2 ∧
      GCode.hasString { g with params := g.params ^^^ 128 } = g.hasString ∧
      GCode.getS { g with params := g.params ^^^ 128 } dflt = g.getS dflt ∧
      GCode.getP { g with params := g.params ^^^ 128 } dflt = g.getP dflt) ∧
    (GCode.hasI { g with params := g.params ^^^ 128 } = g.hasI ∧
      GCode.hasJ { g with params := g.params ^^^ 128 } = g.hasJ ∧
      GCode.hasR { g with params := g.params ^^^ 128 } = g.hasR ∧
      GCode.hasD { g with params := g.params ^^^ 128 } = g.hasD ∧
      GCode.hasC { g with params := g.params ^^^ 128 } = g.hasC ∧
      GCode.hasH { g with params := g.params ^^^ 128 } = g.hasH ∧
      GCode.hasA { g with params := g.params ^^^ 128 } = g.hasA ∧
      GCode.hasB { g with params := g.params ^^^ 128 } = g.hasB ∧
      GCode.hasK { g with params := g.params ^^^ 128 } = g.hasK ∧
      GCode.hasL { g with params := g.params ^^^ 128 } = g.hasL ∧
      GCode.hasO { g with params := g.params ^^^ 128 } = g.hasO ∧
      GCode.hasFormatError { g with params := g.params ^^^ 128 } = g.hasFormatError) ∧
    (g.params < 65536 → g.params ^^^ 128 < 65536) := by
  have h1 := xor_and_disjoint g.params 128 1 rfl
  have h2 := xor_and_disjoint g.params 128 2 rfl
  have h4 := xor_and_disjoint g.params 128 4 rfl
  have h8 := xor_and_disjoint g.params 128 8 rfl
  have h16 := xor_and_disjoint g.params 128 16 rfl
  have h32 := xor_and_disjoint g.params 128 32 rfl
  have h56 := xor_and_disjoint g.params 128 56 rfl
  have h64 := xor_and_disjoint g.params 128 64 rfl
  have h256 := xor_and_disjoint g.params 128 256 rfl
  have h512 := xor_and_disjoint g.params 128 512 rfl
  have h1024 := xor_and_disjoint g.params 128 1024 rfl
  have h2048 := xor_and_disjoint g.params 128 2048 rfl
  have h4096 := xor_and_disjoint g.params 128 4096 rfl
  have h32768 := xor_and_disjoint g.params 128 32768 rfl
  refine ⟨?_, ?_, ?_⟩
  · simp [GCode.hasN, GCode.hasM, GCode.hasG, GCode.hasX, GCode.hasY, GCode.hasZ,
      GCode.hasNoXYZ, GCode.hasE, GCode.hasF, GCode.hasT, GCode.hasS, GCode.hasP,
      GCode.isV2, GCode.hasString, GCode.getS, GCode.getP, h1, h2, h4, h8, h16, h32, h56,
      h64, h256, h512, h1024, h2048, h4096, h32768]
  · simp [GCode.hasI, GCode.hasJ, GCode.hasR, GCode.hasD, GCode.hasC, GCode.hasH,
      GCode.hasA, GCode.hasB, GCode.hasK, GCode.hasL, GCode.hasO, GCode.hasFormatError]
  · intro h
    exact Nat.xor_lt_two_pow (n := 16) h (by decide)

/-- C5: `hasFatalError()` is true exactly when a fatal error message is
stored (`fatalErrorMsg` is not null), and false when none is stored. -/
theorem hasFatalError_iff_message (c : Core) :
    (c.hasFatalError = true ↔ c.fatalErrorMsg ≠ none) ∧
    (c.fatalErrorMsg = none → c.hasFatalError = false) := by
  constructor
  · simp [Core.hasFatalError]
  · intro h
    simp [Core.hasFatalError, h]

/-! ## Numeric argument parsing -/

theorem skipSpaces_replicate (k : Nat) (rest : CStr) :
    skipSpaces (List.replicate k 32 ++ rest) = skipSpaces rest := by
  induction k with
  | zero => simp
  | succ k ih => simp [List.replicate_succ, skipSpaces, ih]

theorem skipSpaces_cons_ne (c : Nat) (rest : CStr) (h : c ≠ 32) :
    skipSpaces (c :: rest) = c :: rest := by
  simp [skipSpaces, h]

theorem strtol10_alpha (c : Nat) (rest : CStr)
    (h : (65 ≤ c ∧ c ≤ 90) ∨ (97 ≤ c ∧ c ≤ 122)) :
    (strtol10 (c :: rest)).consumed = 0 := by
  have hs : isSpaceC c = false := by
    simp only [isSpaceC, Bool.or_eq_false_iff, Bool.and_eq_false_iff, beq_eq_false_iff_ne,
      decide_eq_false_iff_not]
    omega
  have hd : isDigitC c = false := by
    simp only [isDigitC, Bool.and_eq_false_iff, decide_eq_false_iff_not]
    omega
  have hsg : signOf (c :: rest) = (false, 0) := by
    unfold signOf
    split
    · rename_i heq
      simp at heq
      omega
    · rename_i heq
      simp at heq
      omega
    · rfl
  simp [strtol10, List.takeWhile, List.dropWhile, hs, hd, hsg]

/-- C3: when the conversion routine consumes no character of the string left
after the leading spaces (byte 32), `parseLongValue` returns 0 and
`parseFloatValue` returns 0.0, whatever value the routine reported. For ISO C
`strtol` this covers the strings made of spaces only (the empty string
included), spaces followed by a lone sign, and spaces followed by text that
starts with a letter. -/
theorem parse_without_literal_is_zero {F : Type} [Zero F]
    (strtol : CStr → Conv Int) (strtod : CStr → Conv F) (s : CStr) :
    ((strtol (skipSpaces s)).consumed = 0 → parseLongValue strtol s = 0) ∧
    ((strtod (skipSpaces s)).consumed = 0 → parseFloatValue strtod s = 0) ∧
    (∀ k : Nat, parseLongValue strtol10 (List.replicate k 32) = 0) ∧
    (∀ k sign : Nat, sign = 43 ∨ sign = 45 →
      parseLongValue strtol10 (List.replicate k 32 ++ [sign]) = 0) ∧
    (∀ (k c : Nat) (rest : CStr), (65 ≤ c ∧ c ≤ 90) ∨ (97 ≤ c ∧ c ≤ 122) →
      parseLongValue strtol10 (List.replicate k 32 ++ c :: rest) = 0) := by
  refine ⟨?_, ?_, ?_, ?_, ?_⟩
  · intro h
    simp [parseLongValue, h]
  · intro h
    simp [parseFloatValue, h]
  · intro k
    have h := skipSpaces_replicate k []
    simp only [List.append_nil] at h
    simp [parseLongValue, h, skipSpaces, strtol10, signOf]
  · intro k sign hs
    have h32 : sign ≠ 32 := by omega
    simp only [parseLongValue, skipSpaces_replicate, skipSpaces_cons_ne sign [] h32]
    rcases hs with rfl | rfl <;> decide
  · intro k c rest hc
    have h32 : c ≠ 32 := by omega
    simp only [parseLongValue, skipSpaces_replicate, skipSpaces_cons_ne c rest h32]
    simp [strtol10_alpha c rest hc]

/-- Witness for C3: the string of two spaces and a `+` has no numeric literal
for ISO C `strtol` nor for the decimal `strtod`, and both parsers return
zero on it. -/
theorem parse_without_literal_is_zero_witness :
    parseLongValue strtol10 [32, 32, 43] = 0 ∧ parseFloatValue strtodDec [32, 32, 43] = 0 :=
  ⟨(parse_without_literal_is_zero strtol10 strtodDec [32, 32, 43]).1 (by decide),
   (parse_without_literal_is_zero strtol10 strtodDec [32, 32, 43]).2.1 (by decide)⟩

/-! ## Command ring buffer -/

theorem add_mod_inj (size a k l : Nat) (hk : k < size) (hl : l < size)
    (h : (a + k) % size = (a + l) % size) : k = l := by
  have h1 : k ≡ l [MOD size] := Nat.ModEq.add_left_cancel' a h
  have h2 : k % size = l % size := h1
  rwa [Nat.mod_eq_of_lt hk, Nat.mod_eq_of_lt hl] at h2

theorem Ring.rep_init (size : Nat) : Ring.Rep size (Ring.init size) [] := by
  refine ⟨by simp [Ring.init], rfl, Nat.zero_le _, fun h => h, ?_, ?_⟩
  · simp [Ring.init]
  · intro k hk
    simp at hk

theorem Ring.rep_push (size : Nat) (r : Ring) (q : List GCode) (cmd : GCode)
    (h : Ring.Rep size r q) (hlt : q.length < size) :
    Ring.pushCommand size r cmd = .ok
      { commandsBuffered := r.commandsBuffered.set r.bufferWriteIndex cmd,
        bufferReadIndex := r.bufferReadIndex,
        bufferWriteIndex := (r.bufferWriteIndex + 1) % size,
        bufferLength := r.bufferLength + 1 } ∧
    Ring.Rep size
      { commandsBuffered := r.commandsBuffered.set r.bufferWriteIndex cmd,
        bufferReadIndex := r.bufferReadIndex,
        bufferWriteIndex := (r.bufferWriteIndex + 1) % size,
        bufferLength := r.bufferLength + 1 } (q ++ [cmd]) := by
  obtain ⟨hs, hl, _, hr, hw, hg⟩ := h
  have hpos : 0 < size := by omega
  constructor
  · simp [Ring.pushCommand, hl, hlt]
  · refine ⟨by simp [hs], by simp [hl], by simp; omega, hr, ?_, ?_⟩
    · show (r.bufferWriteIndex + 1) % size = (r.bufferReadIndex + (q ++ [cmd]).length) % size
      rw [hw, List.length_append, List.length_singleton, Nat.mod_add_mod, Nat.add_assoc]
    · intro k hk
      show (r.commandsBuffered.set r.bufferWriteIndex cmd)[(r.bufferReadIndex + k) % size]? = _
      simp only [List.length_append, List.length_singleton] at hk
      by_cases hkq : k < q.length
      · have hne : r.bufferWriteIndex ≠ (r.bufferReadIndex + k) % size := by
          rw [hw]
          intro heq
          have := add_mod_inj size r.bufferReadIndex q.length k hlt (by omega) heq
          omega
        rw [List.getElem?_set_ne hne, hg k hkq, List.getElem?_append_left hkq]
      · have hk' : k = q.length := by omega
        subst hk'
        have hwlt : r.bufferWriteIndex < r.commandsBuffered.length := by
          rw [hs, hw]
          exact Nat.mod_lt _ hpos
        rw [← hw, List.getElem?_set_self hwlt]
        simp

theorem Ring.rep_pop (size : Nat) (r : Ring) (q : List GCode) (cmd : GCode)
    (h : Ring.Rep size r (cmd :: q)) :
    (Ring.popCurrentCommand size r).1 = some cmd ∧
    Ring.Rep size (Ring.popCurrentCommand size r).2 q := by
  obtain ⟨hs, hl, hb, hr, hw, hg⟩ := h
  simp only [List.length_cons] at hl hb hw hg
  have hpos : 0 < size := by omega
  have hrd := hr hpos
  have hne : r.bufferLength ≠ 0 := by omega
  constructor
  · have h0 := hg 0 (by omega)
    simp only [Nat.add_zero, Nat.mod_eq_of_lt hrd] at h0
    simp [Ring.popCurrentCommand, hne, h0]
  · simp only [Ring.popCurrentCommand, hne, if_false]
    refine ⟨hs, by simp [hl], by omega, fun _ => Nat.mod_lt _ hpos, ?_, ?_⟩
    · show r.bufferWriteIndex = ((r.bufferReadIndex + 1) % size + q.length) % size
      rw [hw, Nat.mod_add_mod]
      congr 1
      omega
    · intro k hk
      show r.commandsBuffered[((r.bufferReadIndex + 1) % size + k) % size]? = q[k]?
      have := hg (k + 1) (by omega)
      rw [Nat.mod_add_mod]
      have e : r.bufferReadIndex + 1 + k = r.bufferReadIndex + (k + 1) := by omega
      rw [e, this]
      simp

theorem Ring.rep_call (size : Nat) (r : Ring) (q : List GCode) (c : Ring.Call)
    (h : Ring.Rep size r q) : Ring.Rep size (Ring.call size r c) (Ring.pending size q c) := by
  cases c with
  | push cmd =>
    by_cases hlt : q.length < size
    · have hp := Ring.rep_push size r q cmd h hlt
      simp only [Ring.call, hp.1, Ring.pending, hlt, if_true]
      exact hp.2
    · have hfull : size ≤ r.bufferLength := by
        rw [h.2.1]
        omega
      simp only [Ring.call, Ring.pushCommand, hfull, if_true, Ring.pending, hlt, if_false]
      exact h
  | pop =>
    cases q with
    | nil =>
      have h0 : r.bufferLength = 0 := h.2.1
      simp only [Ring.call, Ring.popCurrentCommand, h0, if_true, Ring.pending, List.tail_nil]
      exact h
    | cons cmd q =>
      simp only [Ring.call, Ring.pending, List.tail_cons]
      exact (Ring.rep_pop size r q cmd h).2

theorem Ring.rep_foldl (size : Nat) (calls : List Ring.Call) (r : Ring) (q : List GCode)
    (h : Ring.Rep size r q) :
    Ring.Rep size (Ring.run size calls r) (calls.foldl (Ring.pending size) q) := by
  induction calls generalizing r q with
  | nil => exact h
  | cons c calls ih =>
    simp only [Ring.run, List.foldl_cons]
    exact ih _ _ (Ring.rep_call size r q c h)

theorem Ring.popMany_rep (size : Nat) (q : List GCode) (r : Ring) (h : Ring.Rep size r q) :
    (Ring.popMany size q.length r).1 = q.map some ∧
    (Ring.popMany size q.length r).2.bufferLength = 0 := by
  induction q generalizing r with
  | nil =>
    simp only [List.length_nil, Ring.popMany, List.map_nil, true_and]
    exact h.2.1
  | cons cmd q ih =>
    have hp := Ring.rep_pop size r q cmd h
    have hi := ih (Ring.popCurrentCommand size r).2 hp.2
    simp only [List.length_cons, Ring.popMany, List.map_cons, hp.1, hi.1, hi.2, and_self]

theorem Ring.pending_pushes (size : Nat) (cmds q : List GCode)
    (h : q.length + cmds.length ≤ size) :
    (cmds.map Ring.Call.push).foldl (Ring.pending size) q = q ++ cmds := by
  induction cmds generalizing q with
  | nil => simp
  | cons c cmds ih =>
    simp only [List.length_cons] at h
    have hlt : q.length < size := by omega
    simp only [List.map_cons, List.foldl_cons, Ring.pending, hlt, if_true]
    rw [ih (q ++ [c]) (by simp only [List.length_append, List.length_singleton]; omega)]
    simp

theorem Ring.peek_rep (size : Nat) (q : List GCode) (r : Ring) (h : Ring.Rep size r q) :
    Ring.peekCurrentCommand r = q.head? := by
  cases q with
  | nil =>
    have h0 : r.bufferLength = 0 := h.2.1
    simp [Ring.peekCurrentCommand, h0]
  | cons cmd q =>
    obtain ⟨_, hl, hb, hr, _, hg⟩ := h
    simp only [List.length_cons] at hl hb hg
    have hpos : 0 < size := by omega
    have hne : r.bufferLength ≠ 0 := by omega
    have h0 := hg 0 (by omega)
    simp only [Nat.add_zero, Nat.mod_eq_of_lt (hr hpos)] at h0
    simp [Ring.peekCurrentCommand, hne, h0]

/-- C8: for the command ring buffer of capacity `size = GCODE_BUFFER_SIZE`,
after every sequence of `pushCommand` and `popCurrentCommand` calls the
occupancy `bufferLength` is at most `size`; a push on a buffer with
`bufferLength == size` is refused with Full and leaves the buffer, and so its
occupancy and its stored commands, unchanged; a pop or peek on a buffer with
`bufferLength == 0` yields no command and leaves the buffer unchanged; and
`size` pops from a full buffer return the queued commands in the order of
their pushes and leave `bufferLength == 0`. The buffer does store what is
pushed: after every sequence of calls the occupancy is the number of commands
pushed and not yet popped, peek shows the oldest of them, and popping that
many times returns exactly them, oldest first; a push on a buffer that is not
full succeeds and raises the occupancy by one; and `size` pushes from start-up
fill the buffer, after which `size` pops return the pushed commands in the
order of their pushes and empty it. -/
theorem ring_buffer_bounded_fifo (size : Nat) (calls : List Ring.Call) :
    (Ring.run size calls (Ring.init size)).bufferLength ≤ size ∧
    (∀ (r : Ring) (cmd : GCode), r.bufferLength = size →
      Ring.pushCommand size r cmd = .error CoreError.full ∧
      Ring.call size r (Ring.Call.push cmd) = r) ∧
    (∀ r : Ring, r.bufferLength = 0 →
      Ring.popCurrentCommand size r = (none, r) ∧ Ring.peekCurrentCommand r = none) ∧
    ((Ring.run size calls (Ring.init size)).bufferLength = size →
      (Ring.popMany size size (Ring.run size calls (Ring.init size))).1 =
        (calls.foldl (Ring.pending size) []).map some ∧
      (Ring.popMany size size (Ring.run size calls (Ring.init size))).2.bufferLength = 0) ∧
    ((Ring.run size calls (Ring.init size)).bufferLength =
        (calls.foldl (Ring.pending size) []).length ∧
      Ring.peekCurrentCommand (Ring.run size calls (Ring.init size)) =
        (calls.foldl (Ring.pending size) []).head? ∧
      (Ring.popMany size (Ring.run size calls (Ring.init size)).bufferLength
          (Ring.run size calls (Ring.init size))).1 =
        (calls.foldl (Ring.pending size) []).map some ∧
      (Ring.popMany size (Ring.run size calls (Ring.init size)).bufferLength
          (Ring.run size calls (Ring.init size))).2.bufferLength = 0) ∧
    (∀ (r : Ring) (cmd : GCode), r.bufferLength < size →
      ∃ r' : Ring, Ring.pushCommand size r cmd = .ok r' ∧
        Ring.call size r (Ring.Call.push cmd) = r' ∧
        r'.bufferLength = r.bufferLength + 1 ∧
        r'.commandsBuffered = r.commandsBuffered.set r.bufferWriteIndex cmd) ∧
    (∀ cmds : List GCode, cmds.length = size →
      (Ring.run size (cmds.map Ring.Call.push) (Ring.init size)).bufferLength = size ∧
      (Ring.popMany size size
          (Ring.run size (cmds.map Ring.Call.push) (Ring.init size))).1 = cmds.map some ∧
      (Ring.popMany size size
          (Ring.run size (cmds.map Ring.Call.push) (Ring.init size))).2.bufferLength = 0) := by
  have hrep := Ring.rep_foldl size calls (Ring.init size) [] (Ring.rep_init size)
  refine ⟨?_, ?_, ?_, ?_, ?_, ?_, ?_⟩
  · rw [hrep.2.1]
    exact hrep.2.2.1
  · intro r cmd hfull
    simp [Ring.pushCommand, Ring.call, hfull]
  · intro r hempty
    simp [Ring.popCurrentCommand, Ring.peekCurrentCommand, hempty]
  · intro hfull
    have hlen : (calls.foldl (Ring.pending size) []).length = size := by
      rw [← hrep.2.1]
      exact hfull
    have h := Ring.popMany_rep size _ _ hrep
    rw [hlen] at h
    exact h
  · have h := Ring.popMany_rep size _ _ hrep
    rw [← hrep.2.1] at h
    exact ⟨hrep.2.1, Ring.peek_rep size _ _ hrep, h.1, h.2⟩
  · intro r cmd hlt
    have hnot : ¬ size ≤ r.bufferLength := by omega
    refine ⟨{ commandsBuffered := r.commandsBuffered.set r.bufferWriteIndex cmd,
              bufferReadIndex := r.bufferReadIndex,
              bufferWriteIndex := (r.bufferWriteIndex + 1) % size,
              bufferLength := r.bufferLength + 1 }, ?_, ?_, rfl, rfl⟩
    · simp only [Ring.pushCommand, hnot, if_false]
    · simp only [Ring.call, Ring.pushCommand, hnot, if_false]
  · intro cmds hlen
    have hr := Ring.rep_foldl size (cmds.map Ring.Call.push) (Ring.init size) []
      (Ring.rep_init size)
    rw [Ring.pending_pushes size cmds [] (by simp [hlen]), List.nil_append] at hr
    have h := Ring.popMany_rep size _ _ hr
    rw [hlen] at h
    refine ⟨?_, h.1, h.2⟩
    rw [hr.2.1]
    exact hlen

/-- Witness for C8: in a ring buffer of capacity 2, pushing the sample
command and then the blank one fills the buffer, and two pops return the
sample command first and the blank one second. -/
theorem ring_buffer_bounded_fifo_witness :
    (Ring.run 2 ([sampleCommand, GCode.blank].map Ring.Call.push) (Ring.init 2)).bufferLength
      = 2 ∧
    (Ring.popMany 2 2
        (Ring.run 2 ([sampleCommand, GCode.blank].map Ring.Call.push) (Ring.init 2))).1 =
      [sampleCommand, GCode.blank].map some ∧
    (Ring.popMany 2 2
        (Ring.run 2 ([sampleCommand, GCode.blank].map Ring.Call.push)
          (Ring.init 2))).2.bufferLength = 0 :=
  (ring_buffer_bounded_fifo 2 []).2.2.2.2.2.2 [sampleCommand, GCode.blank] rfl

/-! ## Effect of the writing helpers on the rest of the state -/

theorem Core.emitEach_shape (o : Output) (l : List SourceId) (c : Core) :
    ∃ ch : SourceId → GCodeSource,
      c.emitEach o l = { c with chan := ch } ∧
      ∀ s, ∃ t, ch s = { c.chan s with tx := t } := by
  induction l generalizing c with
  | nil => exact ⟨c.chan, rfl, fun s => ⟨(c.chan s).tx, rfl⟩⟩
  | cons a l ih =>
    cases ho : (c.chan a).isOpen with
    | true =>
      obtain ⟨ch, he, hs⟩ := ih (c.emit a o)
      refine ⟨ch, ?_, ?_⟩
      · simp only [Core.emitEach, ho, if_true, he]
        rfl
      · intro s
        obtain ⟨t, ht⟩ := hs s
        refine ⟨t, ?_⟩
        rw [ht]
        by_cases hsa : s = a
        · subst hsa
          simp [Core.emit, Core.setChan]
        · simp [Core.emit, Core.setChan, hsa]
    | false =>
      obtain ⟨ch, he, hs⟩ := ih c
      refine ⟨ch, ?_, hs⟩
      simp [Core.emitEach, ho, he]

@[simp] theorem Core.setChan_reg (c : Core) (s : SourceId) (ch : GCodeSource) :
    (c.setChan s ch).reg = c.reg := rfl

@[simp] theorem Core.setChan_asm (c : Core) (s : SourceId) (ch : GCodeSource) :
    (c.setChan s ch).asm = c.asm := rfl

@[simp] theorem Core.setChan_ring (c : Core) (s : SourceId) (ch : GCodeSource) :
    (c.setChan s ch).ring = c.ring := rfl

@[simp] theorem Core.setChan_frames (c : Core) (s : SourceId) (ch : GCodeSource) :
    (c.setChan s ch).frames = c.frames := rfl

@[simp] theorem Core.setChan_accepted (c : Core) (s : SourceId) (ch : GCodeSource) :
    (c.setChan s ch).accepted = c.accepted := rfl

@[simp] theorem Core.setChan_fatalErrorMsg (c : Core) (s : SourceId) (ch : GCodeSource) :
    (c.setChan s ch).fatalErrorMsg = c.fatalErrorMsg := rfl

@[simp] theorem Core.setChan_formatErrors (c : Core) (s : SourceId) (ch : GCodeSource) :
    (c.setChan s ch).formatErrors = c.formatErrors := rfl

theorem Core.setChan_chan (c : Core) (s t : SourceId) (ch : GCodeSource) :
    (c.setChan s ch).chan t = if t = s then ch else c.chan t := rfl

@[simp] theorem Core.emit_reg (c : Core) (s : SourceId) (o : Output) :
    (c.emit s o).reg = c.reg := rfl

@[simp] theorem Core.emit_asm (c : Core) (s : SourceId) (o : Output) :
    (c.emit s o).asm = c.asm := rfl

@[simp] theorem Core.emit_ring (c : Core) (s : SourceId) (o : Output) :
    (c.emit s o).ring = c.ring := rfl

@[simp] theorem Core.emit_frames (c : Core) (s : SourceId) (o : Output) :
    (c.emit s o).frames = c.frames := rfl

@[simp] theorem Core.emit_accepted (c : Core) (s : SourceId) (o : Output) :
    (c.emit s o).accepted = c.accepted := rfl

@[simp] theorem Core.emit_fatalErrorMsg (c : Core) (s : SourceId) (o : Output) :
    (c.emit s o).fatalErrorMsg = c.fatalErrorMsg := rfl

@[simp] theorem Core.emit_formatErrors (c : Core) (s : SourceId) (o : Output) :
    (c.emit s o).formatErrors = c.formatErrors := rfl

@[simp] theorem Core.emit_lastLineNumber (c : Core) (s t : SourceId) (o : Output) :
    ((c.emit s o).chan t).lastLineNumber = (c.chan t).lastLineNumber := by
  by_cases h : t = s
  · subst h
    simp [Core.emit, Core.setChan]
  · simp [Core.emit, Core.setChan, h]

@[simp] theorem Core.emit_rx (c : Core) (s t : SourceId) (o : Output) :
    ((c.emit s o).chan t).rx = (c.chan t).rx := by
  by_cases h : t = s
  · subst h
    simp [Core.emit, Core.setChan]
  · simp [Core.emit, Core.setChan, h]

@[simp] theorem Core.emit_waitingForResend (c : Core) (s t : SourceId) (o : Output) :
    ((c.emit s o).chan t).waitingForResend = (c.chan t).waitingForResend := by
  by_cases h : t = s
  · subst h
    simp [Core.emit, Core.setChan]
  · simp [Core.emit, Core.setChan, h]

@[simp] theorem Core.emitEach_reg (c : Core) (o : Output) (l : List SourceId) :
    (c.emitEach o l).reg = c.reg := by
  obtain ⟨ch, he, _⟩ := Core.emitEach_shape o l c
  rw [he]

@[simp] theorem Core.emitEach_asm (c : Core) (o : Output) (l : List SourceId) :
    (c.emitEach o l).asm = c.asm := by
  obtain ⟨ch, he, _⟩ := Core.emitEach_shape o l c
  rw [he]

@[simp] theorem Core.emitEach_ring (c : Core) (o : Output) (l : List SourceId) :
    (c.emitEach o l).ring = c.ring := by
  obtain ⟨ch, he, _⟩ := Core.emitEach_shape o l c
  rw [he]

@[simp] theorem Core.emitEach_frames (c : Core) (o : Output) (l : List SourceId) :
    (c.emitEach o l).frames = c.frames := by
  obtain ⟨ch, he, _⟩ := Core.emitEach_shape o l c
  rw [he]

@[simp] theorem Core.emitEach_accepted (c : Core) (o : Output) (l : List SourceId) :
    (c.emitEach o l).accepted = c.accepted := by
  obtain ⟨ch, he, _⟩ := Core.emitEach_shape o l c
  rw [he]

@[simp] theorem Core.emitEach_fatalErrorMsg (c : Core) (o : Output) (l : List SourceId) :
    (c.emitEach o l).fatalErrorMsg = c.fatalErrorMsg := by
  obtain ⟨ch, he, _⟩ := Core.emitEach_shape o l c
  rw [he]

@[simp] theorem Core.emitEach_formatErrors (c : Core) (o : Output) (l : List SourceId) :
    (c.emitEach o l).formatErrors = c.formatErrors := by
  obtain ⟨ch, he, _⟩ := Core.emitEach_shape o l c
  rw [he]

@[simp] theorem Core.emitEach_lastLineNumber (c : Core) (o : Output) (l : List SourceId)
    (s : SourceId) : ((c.emitEach o l).chan s).lastLineNumber = (c.chan s).lastLineNumber := by
  obtain ⟨ch, he, hs⟩ := Core.emitEach_shape o l c
  obtain ⟨t, ht⟩ := hs s
  rw [he]
  show (ch s).lastLineNumber = _
  rw [ht]

@[simp] theorem Core.emitEach_rx (c : Core) (o : Output) (l : List SourceId)
    (s : SourceId) : ((c.emitEach o l).chan s).rx = (c.chan s).rx := by
  obtain ⟨ch, he, hs⟩ := Core.emitEach_shape o l c
  obtain ⟨t, ht⟩ := hs s
  rw [he]
  show (ch s).rx = _
  rw [ht]

/-! ## Source registry -/

theorem Registry.inv_of_eq (r r' : Registry) (h : r.Inv) (hs : r'.sources = r.sources)
    (hw : r'.writeableSources = r.writeableSources) : r'.Inv := by
  unfold Registry.Inv Registry.numSources at *
  rw [hs, hw]
  exact h

theorem Registry.inv_empty : Registry.empty.Inv := by
  simp [Registry.Inv, Registry.empty, Registry.numSources]

theorem Registry.inv_register (r r' : Registry) (s : SourceId) (w : Bool) (h : r.Inv)
    (hr : r.registerSource s w = .ok r') : r'.Inv := by
  unfold Registry.registerSource at hr
  split at hr
  · cases hr
    exact h
  · split at hr
    · cases hr
    · rename_i hcap
      cases hr
      obtain ⟨hn, hsub⟩ := h
      unfold Registry.numSources at hn hcap
      refine ⟨?_, ?_⟩
      · simp only [Registry.numSources, List.length_append, List.length_singleton]
        omega
      · cases w with
        | true => exact List.Sublist.append hsub (List.Sublist.refl _)
        | false => exact hsub.trans (List.sublist_append_left _ _)

theorem Registry.inv_remove (r : Registry) (s : SourceId) (h : r.Inv) :
    (r.removeSource s).Inv := by
  obtain ⟨hn, hsub⟩ := h
  refine ⟨?_, ?_⟩
  · exact Nat.le_trans (List.length_filter_le _ _) hn
  · exact hsub.filter _

theorem Registry.inv_numWrite (r : Registry) (h : r.Inv) :
    r.numWriteSources ≤ r.numSources := h.2.length_le

theorem Core.rotateSource_regInv (c : Core) (h : c.reg.Inv) : c.rotateSource.reg.Inv := by
  unfold Core.rotateSource
  split
  · exact h
  · split
    · exact h
    · exact Registry.inv_of_eq c.reg _ h rfl rfl

theorem Core.removeSource_regInv (c : Core) (s : SourceId) (h : c.reg.Inv) :
    (c.removeSource s).reg.Inv := Registry.inv_remove c.reg s h

theorem Core.requestResend_regInv (c : Core) (a : SourceId) (h : c.reg.Inv) :
    (c.requestResend a).reg.Inv := by
  unfold Core.requestResend
  split
  · exact Registry.inv_remove _ a h
  · exact h

theorem Core.reportFatalError_reg (c : Core) : c.reportFatalError.reg = c.reg := by
  unfold Core.reportFatalError
  split <;> simp

theorem Core.setFatal_reg (c : Core) (msg : String) : (c.setFatal msg).reg = c.reg := by
  unfold Core.setFatal
  split
  · rw [Core.reportFatalError_reg]
  · rfl

theorem Core.checkAndPushCommand_regInv (cfg : Build) (c : Core) (a : SourceId)
    (binary : Bool) (cmd : GCode) (line : Nat) (h : c.reg.Inv) :
    (c.checkAndPushCommand cfg a binary cmd line).reg.Inv := by
  unfold Core.checkAndPushCommand
  split
  · split
    · split
      · exact h
      · exact h
    · split
      · exact h
      · exact Core.requestResend_regInv _ a h
  · split
    · exact h
    · exact h

theorem Core.completeFrame_regInv (cfg : Build) (c : Core) (a : SourceId)
    (binary : Bool) (stored : List (SourceId × Nat)) (h : c.reg.Inv) :
    (c.completeFrame cfg a binary stored).reg.Inv := by
  unfold Core.completeFrame
  simp only
  split
  · split
    · exact Core.checkAndPushCommand_regInv cfg _ a _ _ _ h
    · exact Core.requestResend_regInv c a h
  · split
    · exact Core.checkAndPushCommand_regInv cfg _ a _ _ _ h
    · split
      · rw [Core.setFatal_reg]
        exact Core.checkAndPushCommand_regInv cfg _ a _ _ _ h
      · exact Core.checkAndPushCommand_regInv cfg _ a _ _ _ h

theorem Core.arbitrate_regInv (c : Core) (h : c.reg.Inv) : c.arbitrate.reg.Inv := by
  unfold Core.arbitrate
  split
  · exact Core.rotateSource_regInv c h
  · exact h

theorem Core.pull_regInv (cfg : Build) (c : Core) (a : SourceId) (h : c.reg.Inv) :
    (c.pull cfg a).reg.Inv := by
  unfold Core.pull
  simp only
  split
  · exact h
  · exact Core.completeFrame_regInv cfg _ _ _ _ h
  · exact Core.requestResend_regInv _ _ h

theorem Core.readFromSerial_regInv (cfg : Build) (c : Core) (h : c.reg.Inv) :
    (c.readFromSerial cfg).reg.Inv := by
  have h1 := Core.arbitrate_regInv c h
  unfold Core.readFromSerial
  split
  · exact h
  · split
    · exact h
    · split
      · exact h1
      · split
        · exact Core.pull_regInv cfg _ _ h1
        · exact h1

theorem Core.apply_regInv (cfg : Build) (c : Core) (op : Op) (h : c.reg.Inv) :
    (c.apply cfg op).reg.Inv := by
  cases op with
  | deliver s data => exact h
  | registerSource s =>
    simp only [Core.apply, Core.registerSource]
    cases hr : c.reg.registerSource s (c.chan s).supportsWrite with
    | error e => exact h
    | ok r => exact Registry.inv_register c.reg r s _ h hr
  | removeSource s => exact Core.removeSource_regInv c s h
  | rotateSource => exact Core.rotateSource_regInv c h
  | readFromSerial => exact Core.readFromSerial_regInv cfg c h
  | pushCommand cmd =>
    simp only [Core.apply, Core.pushCommand]
    cases Ring.pushCommand cfg.GCODE_BUFFER_SIZE c.ring cmd with
    | error e => exact h
    | ok r => exact h
  | popCurrentCommand => exact h
  | executeString cmd => exact h
  | keepAlive state now =>
    simp only [Core.apply, Core.keepAlive]
    split
    · exact h
    · split
      · simpa using h
      · exact h
  | reportFatalError =>
    simp only [Core.apply, Core.reportFatalError_reg]
    exact h
  | writeToAll byte =>
    simp only [Core.apply, Core.writeToAll, Core.emitEach_reg]
    exact h

theorem Core.run_regInv (cfg : Build) (ops : List Op) (c : Core) (h : c.reg.Inv) :
    (Core.run cfg ops c).reg.Inv := by
  induction ops generalizing c with
  | nil => exact h
  | cons op ops ih => exact ih _ (Core.apply_regInv cfg c op h)

/-- C9: when the registry already holds `MAX_DATA_SOURCES` (4) channels,
`registerSource` of a channel that is not yet registered fails with the
Capacity error and the whole state, so `sources`, `numSources`,
`writeableSources` and `numWriteSources`, is unchanged; and in every state
reached from start-up by operations of the core `numSources` is at most
`MAX_DATA_SOURCES` and `numWriteSources` at most `numSources`. -/
theorem registerSource_capacity (cfg : Build) :
    (∀ (c : Core) (newSource : SourceId),
      c.reg.numSources = MAX_DATA_SOURCES → newSource ∉ c.reg.sources →
      c.registerSource newSource = .error CoreError.capacity ∧
      c.apply cfg (Op.registerSource newSource) = c) ∧
    (∀ (chan : SourceId → GCodeSource) (interval : Nat) (ops : List Op),
      (Core.run cfg ops (Core.init cfg chan interval)).reg.numSources ≤ MAX_DATA_SOURCES ∧
      (Core.run cfg ops (Core.init cfg chan interval)).reg.numWriteSources ≤
        (Core.run cfg ops (Core.init cfg chan interval)).reg.numSources) := by
  constructor
  · intro c newSource hfull hnew
    have h : c.registerSource newSource = .error CoreError.capacity := by
      simp [Core.registerSource, Registry.registerSource, hnew, hfull]
    exact ⟨h, by simp [Core.apply, h]⟩
  · intro chan interval ops
    have h := Core.run_regInv cfg ops (Core.init cfg chan interval) Registry.inv_empty
    exact ⟨h.1, Registry.inv_numWrite _ h⟩

/-- Witness for C9: with channels 0, 1, 2 and 3 registered in the sample
configuration, registering channel 4 fails with the Capacity error and
changes nothing. -/
theorem registerSource_capacity_witness :
    (Core.run sampleBuild
        [Op.registerSource 0, Op.registerSource 1, Op.registerSource 2, Op.registerSource 3]
        sampleInit).registerSource 4 = .error CoreError.capacity ∧
    (Core.run sampleBuild
        [Op.registerSource 0, Op.registerSource 1, Op.registerSource 2, Op.registerSource 3]
        sampleInit).apply sampleBuild (Op.registerSource 4) =
      Core.run sampleBuild
        [Op.registerSource 0, Op.registerSource 1, Op.registerSource 2, Op.registerSource 3]
        sampleInit :=
  (registerSource_capacity sampleBuild).1 _ 4 (by decide) (by decide)

/-! ## Fatal error latch -/

theorem Core.reportFatalError_fatalErrorMsg (c : Core) :
    c.reportFatalError.fatalErrorMsg = c.fatalErrorMsg := by
  unfold Core.reportFatalError
  split <;> simp

theorem Core.apply_fatalErrorMsg (cfg : Build) (c : Core) (op : Op)
    (h : c.hasFatalError = true) : (c.apply cfg op).fatalErrorMsg = c.fatalErrorMsg := by
  cases op with
  | deliver s data => rfl
  | registerSource s =>
    simp only [Core.apply, Core.registerSource]
    cases c.reg.registerSource s (c.chan s).supportsWrite <;> rfl
  | removeSource s => rfl
  | rotateSource =>
    simp only [Core.apply, Core.rotateSource]
    split
    · rfl
    · split <;> rfl
  | readFromSerial => simp [Core.apply, Core.readFromSerial, h]
  | pushCommand cmd =>
    simp only [Core.apply, Core.pushCommand]
    cases Ring.pushCommand cfg.GCODE_BUFFER_SIZE c.ring cmd <;> rfl
  | popCurrentCommand => rfl
  | executeString cmd => rfl
  | keepAlive state now =>
    simp only [Core.apply, Core.keepAlive]
    split
    · rfl
    · split
      · simp
      · rfl
  | reportFatalError => exact Core.reportFatalError_fatalErrorMsg c
  | writeToAll byte => simp [Core.apply, Core.writeToAll]

theorem Core.run_fatalErrorMsg (cfg : Build) (ops : List Op) (c : Core)
    (h : c.hasFatalError = true) : (Core.run cfg ops c).fatalErrorMsg = c.fatalErrorMsg := by
  induction ops generalizing c with
  | nil => rfl
  | cons op ops ih =>
    have h1 := Core.apply_fatalErrorMsg cfg c op h
    have h2 : (c.apply cfg op).hasFatalError = true := by
      simpa [Core.hasFatalError, h1] using h
    have h3 := ih (c.apply cfg op) h2
    simp only [Core.run, List.foldl_cons] at h3 ⊢
    rw [h3, h1]

/-- C10: the fatal error latch is set once. From a state in which
`hasFatalError()` is true, every operation of the core (`registerSource`,
`removeSource`, `rotateSource`, `readFromSerial`, `pushCommand`,
`popCurrentCommand`, `executeString`, `keepAlive`, `reportFatalError`,
`writeToAll`, and the arrival of bytes), and so every sequence of them, leaves
`hasFatalError()` true and the stored message as it was; `fatalErrorMsg` is
never reset to null. -/
theorem fatal_latch_set_once (cfg : Build) (c : Core) (h : c.hasFatalError = true) :
    (∀ op : Op, (c.apply cfg op).hasFatalError = true ∧
      (c.apply cfg op).fatalErrorMsg = c.fatalErrorMsg ∧
      (c.apply cfg op).fatalErrorMsg ≠ none) ∧
    (∀ ops : List Op, (Core.run cfg ops c).hasFatalError = true ∧
      (Core.run cfg ops c).fatalErrorMsg = c.fatalErrorMsg ∧
      (Core.run cfg ops c).fatalErrorMsg ≠ none) := by
  have hc : c.fatalErrorMsg ≠ none := by
    simpa [Core.hasFatalError] using h
  constructor
  · intro op
    have h1 := Core.apply_fatalErrorMsg cfg c op h
    refine ⟨?_, h1, ?_⟩
    · simpa [Core.hasFatalError, h1] using h
    · rw [h1]
      exact hc
  · intro ops
    have h1 := Core.run_fatalErrorMsg cfg ops c h
    refine ⟨?_, h1, ?_⟩
    · simpa [Core.hasFatalError, h1] using h
    · rw [h1]
      exact hc

/-- Witness for C10: the sample core latched by three undecodable lines stays
latched through a further run of every kind of operation. -/
theorem fatal_latch_set_once_witness :
    sampleLatched.hasFatalError = true ∧
    (Core.run sampleBuild
      [Op.deliver 0 [71, 49, 10], Op.readFromSerial, Op.rotateSource, Op.reportFatalError,
       Op.pushCommand GCode.blank, Op.popCurrentCommand, Op.executeString [71, 49],
       Op.keepAlive FirmwareState.Processing 5000, Op.registerSource 2, Op.removeSource 0,
       Op.writeToAll 10]
      sampleLatched).hasFatalError = true :=
  ⟨by decide, ((fatal_latch_set_once sampleBuild sampleLatched (by decide)).2 _).1⟩

/-! ## Arbitration and frame assembly -/

theorem feedByte_originIs (cfg : Build) (a : Assembly) (src : SourceId) (b : Nat)
    (h : ∀ p ∈ a.commandReceiving, p.1 = src) : (feedByte cfg a src b).originIs src := by
  have happ : ∀ p ∈ a.commandReceiving ++ [(src, b)], p.1 = src := by
    intro p hp
    rcases List.mem_append.1 hp with hp | hp
    · exact h p hp
    · simp only [List.mem_singleton] at hp
      rw [hp]
  unfold feedByte
  simp only
  repeat' split
  all_goals first | exact h | exact happ | trivial

theorem assemble_originIs (cfg : Build) (src : SourceId) (data : List Nat) (a : Assembly)
    (h : ∀ p ∈ a.commandReceiving, p.1 = src) : (assemble cfg src a data).1.originIs src := by
  induction data generalizing a with
  | nil => exact h
  | cons b rest ih =>
    have hf := feedByte_originIs cfg a src b h
    unfold assemble
    split
    · rename_i a' heq
      rw [heq] at hf
      exact ih a' hf
    · rename_i binary stored heq
      rw [heq] at hf
      exact hf
    · trivial

theorem Registry.mem_pollOrder (r : Registry) (s : SourceId) :
    s ∈ r.pollOrder ↔ s ∈ r.sources := by
  unfold Registry.pollOrder
  split
  · rfl
  · simp only [List.mem_append]
    constructor
    · rintro (h | h)
      · exact List.mem_of_mem_drop h
      · exact List.mem_of_mem_take h
    · intro h
      rw [← List.take_append_drop (List.indexOf _ r.sources + 1) r.sources] at h
      rcases List.mem_append.1 h with h | h
      · exact Or.inr h
      · exact Or.inl h

theorem Registry.registerSource_keeps (r r' : Registry) (s : SourceId) (w : Bool)
    (hr : r.registerSource s w = .ok r') :
    r'.activeSource = r.activeSource ∧ ∀ a, a ∈ r.sources → a ∈ r'.sources := by
  unfold Registry.registerSource at hr
  split at hr
  · cases hr
    exact ⟨rfl, fun _ h => h⟩
  · split at hr
    · cases hr
    · cases hr
      exact ⟨rfl, fun _ h => List.mem_append_left _ h⟩

theorem Core.pauseInv_of_eq (c c' : Core) (h : c.PauseInv) (ha : c'.asm = c.asm)
    (hr : c'.reg = c.reg) (hf : c'.frames = c.frames) : c'.PauseInv := by
  unfold Core.PauseInv at *
  rw [ha, hr, hf]
  exact h

theorem Core.pauseInv_reset (c c' : Core) (h : c.PauseInv)
    (ha : c'.asm.commandReceiving = []) (hr : c'.reg = c.reg) (hf : c'.frames = c.frames) :
    c'.PauseInv := by
  unfold Core.PauseInv at *
  rw [ha, hr, hf]
  exact ⟨by simp, h.2.1, h.2.2⟩

theorem Core.removeSource_pauseInv (c : Core) (s : SourceId) (h : c.PauseInv) :
    (c.removeSource s).PauseInv := by
  obtain ⟨h1, h2, h3⟩ := h
  by_cases ha : c.reg.activeSource = some s
  · refine ⟨?_, h2, ?_⟩
    · simp [Core.removeSource, ha, Assembly.empty]
    · simp [Core.removeSource, Registry.removeSource, ha]
  · refine ⟨?_, h2, ?_⟩
    · intro p hp
      have hp' : p ∈ c.asm.commandReceiving := by
        simpa [Core.removeSource, ha] using hp
      simpa [Core.removeSource, Registry.removeSource, ha] using h1 p hp'
    · intro a hact
      have hact' : c.reg.activeSource = some a := by
        simpa [Core.removeSource, Registry.removeSource, ha] using hact
      have hne : a ≠ s := by
        rintro rfl
        exact ha hact'
      simpa [Core.removeSource, Registry.removeSource, hne] using h3 a hact'

theorem Core.rotateSource_pauseInv (c : Core) (h : c.PauseInv) : c.rotateSource.PauseInv := by
  unfold Core.rotateSource
  split
  · exact h
  · rename_i s hfind
    split
    · exact h
    · refine ⟨by simp [Assembly.empty], h.2.1, ?_⟩
      intro a ha
      simp only [Option.some.injEq] at ha
      subst ha
      exact (Registry.mem_pollOrder c.reg s).1 (List.mem_of_find?_eq_some hfind)

theorem Core.requestResend_pauseInv (c : Core) (a : SourceId) (h : c.PauseInv) :
    (c.requestResend a).PauseInv := by
  unfold Core.requestResend
  split
  · exact Core.removeSource_pauseInv _ a (Core.pauseInv_of_eq c _ h rfl rfl rfl)
  · exact Core.pauseInv_reset c _ h rfl rfl rfl

theorem Core.setFatal_pauseInv (c : Core) (msg : String) (h : c.PauseInv) :
    (c.setFatal msg).PauseInv := by
  unfold Core.setFatal
  split
  · unfold Core.reportFatalError
    simp only
    exact Core.pauseInv_of_eq c _ h (by simp) (by simp) (by simp)
  · exact h

theorem Core.checkAndPushCommand_pauseInv (cfg : Build) (c : Core) (a : SourceId)
    (binary : Bool) (cmd : GCode) (line : Nat) (h : c.PauseInv) :
    (c.checkAndPushCommand cfg a binary cmd line).PauseInv := by
  unfold Core.checkAndPushCommand
  repeat' split
  all_goals first
    | exact h
    | exact Core.pauseInv_of_eq c _ h rfl rfl rfl
    | exact Core.requestResend_pauseInv _ a (Core.pauseInv_of_eq c _ h rfl rfl rfl)

theorem Core.completeFrame_pauseInv (cfg : Build) (c : Core) (a : SourceId)
    (binary : Bool) (stored : List (SourceId × Nat)) (h : c.PauseInv) :
    (c.completeFrame cfg a binary stored).PauseInv := by
  have h0 : ∀ n : Nat, Core.PauseInv { c with formatErrors := n } := fun n =>
    Core.pauseInv_of_eq c _ h rfl rfl rfl
  unfold Core.completeFrame
  simp only
  repeat' split
  all_goals first
    | exact Core.requestResend_pauseInv c a h
    | exact Core.checkAndPushCommand_pauseInv cfg _ a _ _ _ (h0 _)
    | exact Core.setFatal_pauseInv _ _ (Core.checkAndPushCommand_pauseInv cfg _ a _ _ _ (h0 _))

theorem Core.arbitrate_pauseInv (c : Core) (h : c.PauseInv) : c.arbitrate.PauseInv := by
  unfold Core.arbitrate
  split
  · exact Core.rotateSource_pauseInv c h
  · exact h

theorem Core.pull_pauseInv (cfg : Build) (c : Core) (a : SourceId) (h : c.PauseInv)
    (hact : c.reg.activeSource = some a) : (c.pull cfg a).PauseInv := by
  have htag : ∀ p ∈ c.asm.commandReceiving, p.1 = a := by
    intro p hp
    have := h.1 p hp
    rw [hact] at this
    exact (Option.some.inj this).symm
  have ho := assemble_originIs cfg a (c.chan a).rx c.asm htag
  unfold Core.pull
  simp only
  split
  · rename_i asm heq
    rw [heq] at ho
    refine ⟨?_, h.2.1, h.2.2⟩
    intro p hp
    show c.reg.activeSource = some p.1
    rw [hact, ho p hp]
  · rename_i binary stored heq
    rw [heq] at ho
    apply Core.completeFrame_pauseInv
    refine ⟨by simp [Assembly.empty], ?_, h.2.2⟩
    intro f hf p hp q hq
    have hf' : f ∈ c.frames ++ [stored] := hf
    rcases List.mem_append.1 hf' with hf1 | hf1
    · exact h.2.1 f hf1 p hp q hq
    · simp only [List.mem_singleton] at hf1
      subst hf1
      rw [ho p hp, ho q hq]
  · apply Core.requestResend_pauseInv
    exact ⟨by simp [Assembly.empty], h.2.1, h.2.2⟩

theorem Core.readFromSerial_pauseInv (cfg : Build) (c : Core) (h : c.PauseInv) :
    (c.readFromSerial cfg).PauseInv := by
  have h1 := Core.arbitrate_pauseInv c h
  unfold Core.readFromSerial
  split
  · exact h
  · split
    · exact h
    · split
      · exact h1
      · rename_i a hact
        split
        · exact Core.pull_pauseInv cfg _ a h1 hact
        · exact h1

theorem Core.apply_pauseInv (cfg : Build) (c : Core) (op : Op) (h : c.PauseInv) :
    (c.apply cfg op).PauseInv := by
  cases op with
  | deliver s data => exact Core.pauseInv_of_eq c _ h rfl rfl rfl
  | registerSource s =>
    simp only [Core.apply, Core.registerSource]
    cases hr : c.reg.registerSource s (c.chan s).supportsWrite with
    | error e => exact h
    | ok r =>
      obtain ⟨hact, hmem⟩ := Registry.registerSource_keeps c.reg r s _ hr
      refine ⟨?_, h.2.1, ?_⟩
      · intro p hp
        show r.activeSource = some p.1
        rw [hact]
        exact h.1 p hp
      · intro a ha
        show a ∈ r.sources
        have ha' : r.activeSource = some a := ha
        rw [hact] at ha'
        exact hmem a (h.2.2 a ha')
  | removeSource s => exact Core.removeSource_pauseInv c s h
  | rotateSource => exact Core.rotateSource_pauseInv c h
  | readFromSerial => exact Core.readFromSerial_pauseInv cfg c h
  | pushCommand cmd =>
    simp only [Core.apply, Core.pushCommand]
    cases Ring.pushCommand cfg.GCODE_BUFFER_SIZE c.ring cmd with
    | error e => exact h
    | ok r => exact Core.pauseInv_of_eq c _ h rfl rfl rfl
  | popCurrentCommand => exact Core.pauseInv_of_eq c _ h rfl rfl rfl
  | executeString cmd => exact Core.pauseInv_of_eq c _ h rfl rfl rfl
  | keepAlive state now =>
    simp only [Core.apply, Core.keepAlive]
    repeat' split
    all_goals first
      | exact h
      | exact Core.pauseInv_of_eq c _ h (by simp) (by simp) (by simp)
  | reportFatalError =>
    simp only [Core.apply, Core.reportFatalError]
    split
    · exact h
    · exact Core.pauseInv_of_eq c _ h (by simp) (by simp) (by simp)
  | writeToAll byte =>
    exact Core.pauseInv_of_eq c _ h (by simp [Core.apply, Core.writeToAll])
      (by simp [Core.apply, Core.writeToAll]) (by simp [Core.apply, Core.writeToAll])

theorem Core.run_pauseInv (cfg : Build) (ops : List Op) (c : Core) (h : c.PauseInv) :
    (Core.run cfg ops c).PauseInv := by
  induction ops generalizing c with
  | nil => exact h
  | cons op ops ih => exact ih _ (Core.apply_pauseInv cfg c op h)

theorem Core.requestResend_rx (c : Core) (a s : SourceId) :
    ((c.requestResend a).chan s).rx = (c.chan s).rx := by
  unfold Core.requestResend
  split
  · show ((c.setChan a _).chan s).rx = _
    rw [Core.setChan_chan]
    split
    · rename_i hs
      rw [hs]
    · rfl
  · exact Core.emit_rx c a s _

theorem Core.setFatal_rx (c : Core) (msg : String) (s : SourceId) :
    ((c.setFatal msg).chan s).rx = (c.chan s).rx := by
  unfold Core.setFatal
  split
  · unfold Core.reportFatalError
    simp
  · rfl

theorem Core.checkAndPushCommand_rx (cfg : Build) (c : Core) (a : SourceId)
    (binary : Bool) (cmd : GCode) (line : Nat) (s : SourceId) :
    ((c.checkAndPushCommand cfg a binary cmd line).chan s).rx = (c.chan s).rx := by
  have hset : ∀ ch : GCodeSource, ch.rx = (c.chan a).rx →
      ((c.setChan a ch).chan s).rx = (c.chan s).rx := by
    intro ch hch
    rw [Core.setChan_chan]
    split
    · rename_i hs
      rw [hs, hch]
    · rfl
  unfold Core.checkAndPushCommand
  repeat' split
  all_goals first
    | rfl
    | exact hset _ rfl
    | exact Core.emit_rx c a s _
    | (rw [Core.requestResend_rx]; exact hset _ rfl)

theorem Core.completeFrame_rx (cfg : Build) (c : Core) (a : SourceId)
    (binary : Bool) (stored : List (SourceId × Nat)) (s : SourceId) :
    ((c.completeFrame cfg a binary stored).chan s).rx = (c.chan s).rx := by
  unfold Core.completeFrame
  simp only
  repeat' split
  all_goals first
    | exact Core.requestResend_rx c a s
    | exact Core.checkAndPushCommand_rx cfg _ a _ _ _ s
    | (rw [Core.setFatal_rx]; exact Core.checkAndPushCommand_rx cfg _ a _ _ _ s)

theorem Core.pull_rx (cfg : Build) (c : Core) (a s : SourceId) (hs : s ≠ a) :
    ((c.pull cfg a).chan s).rx = (c.chan s).rx := by
  have hset : ∀ ch : GCodeSource, (c.setChan a ch).chan s = c.chan s := by
    intro ch
    rw [Core.setChan_chan]
    simp [hs]
  unfold Core.pull
  simp only
  split
  · show ((c.setChan a _).chan s).rx = _
    rw [hset]
  · rw [Core.completeFrame_rx]
    show ((c.setChan a _).chan s).rx = _
    rw [hset]
  · rw [Core.requestResend_rx]
    show ((c.setChan a _).chan s).rx = _
    rw [hset]

theorem Core.rotateSource_chan (c : Core) : c.rotateSource.chan = c.chan := by
  unfold Core.rotateSource
  repeat' split
  all_goals rfl

theorem Core.rotateSource_active (c : Core) (t : SourceId)
    (h : c.reg.pollOrder.find? (fun s => (c.chan s).dataAvailable) = some t) :
    c.rotateSource.reg.activeSource = some t := by
  unfold Core.rotateSource
  rw [h]
  simp only
  split
  · assumption
  · rfl

theorem Core.rotateSource_none (c : Core)
    (h : c.reg.pollOrder.find? (fun s => (c.chan s).dataAvailable) = none) :
    c.rotateSource = c := by
  unfold Core.rotateSource
  rw [h]

/-- C6: the pause rule. In every state reached from start-up by any
interleaving of byte arrivals and core operations, every byte held in
`commandReceiving` was read from `activeSource`, and every completed frame
consists of bytes of a single channel, so no command is assembled from bytes
of two channels. While `commandReceiving` is non-empty a step
(`readFromSerial`) reads from no channel other than `activeSource`. When it is
empty, a step in a reachable state reads from no channel other than the first
one with data available in polling order, and the polling order is the
registered channels starting after the one last serviced and wrapping
around. -/
theorem pause_rule_single_origin (cfg : Build) (chan : SourceId → GCodeSource)
    (interval : Nat) (ops : List Op) :
    (∀ p ∈ (Core.run cfg ops (Core.init cfg chan interval)).asm.commandReceiving,
      (Core.run cfg ops (Core.init cfg chan interval)).reg.activeSource = some p.1) ∧
    (∀ f ∈ (Core.run cfg ops (Core.init cfg chan interval)).frames,
      ∀ p ∈ f, ∀ q ∈ f, p.1 = q.1) ∧
    (∀ (c : Core) (a s : SourceId), c.asm.commandReceiving ≠ [] →
      c.reg.activeSource = some a → s ≠ a →
      ((c.readFromSerial cfg).chan s).rx = (c.chan s).rx) ∧
    (∀ s : SourceId,
      (Core.run cfg ops (Core.init cfg chan interval)).asm.commandReceiving = [] →
      (Core.run cfg ops (Core.init cfg chan interval)).reg.pollOrder.find?
        (fun t => ((Core.run cfg ops (Core.init cfg chan interval)).chan t).dataAvailable)
        ≠ some s →
      (((Core.run cfg ops (Core.init cfg chan interval)).readFromSerial cfg).chan s).rx =
        ((Core.run cfg ops (Core.init cfg chan interval)).chan s).rx) ∧
    (∀ (r : Registry) (a : SourceId), r.activeSource = some a →
      r.pollOrder =
        r.sources.drop (r.sources.indexOf a + 1) ++ r.sources.take (r.sources.indexOf a + 1)) := by
  have hinit : (Core.init cfg chan interval).PauseInv := by
    refine ⟨?_, ?_, ?_⟩ <;> simp [Core.init, Assembly.empty, Registry.empty]
  have hinv := Core.run_pauseInv cfg ops _ hinit
  generalize Core.run cfg ops (Core.init cfg chan interval) = c at hinv
  refine ⟨hinv.1, hinv.2.1, ?_, ?_, ?_⟩
  · intro c a s hne hact hs
    have harb : c.arbitrate = c := by
      unfold Core.arbitrate
      cases hb : c.asm.commandReceiving with
      | nil => exact absurd hb hne
      | cons p l => simp
    unfold Core.readFromSerial
    rw [harb, hact]
    simp only
    repeat' split
    all_goals first
      | rfl
      | exact Core.pull_rx cfg c a s hs
  · intro s hempty hfind
    have harb : c.arbitrate = c.rotateSource := by
      unfold Core.arbitrate
      simp [hempty]
    unfold Core.readFromSerial
    rw [harb]
    cases hf : c.reg.pollOrder.find? (fun t => (c.chan t).dataAvailable) with
    | none =>
      rw [Core.rotateSource_none c hf]
      split
      · rfl
      · split
        · rfl
        · split
          · rfl
          · rename_i a hact
            have hmem : a ∈ c.reg.pollOrder :=
              (Registry.mem_pollOrder c.reg a).2 (hinv.2.2 a hact)
            have hno := List.find?_eq_none.1 hf a hmem
            simp only [Bool.not_eq_true] at hno
            simp [hno]
    | some t =>
      have hts : s ≠ t := by
        rintro rfl
        exact hfind hf
      rw [Core.rotateSource_active c t hf]
      simp only
      split
      · rfl
      · split
        · rfl
        · split
          · rw [Core.pull_rx cfg _ t s hts, Core.rotateSource_chan]
          · rw [Core.rotateSource_chan]
  · intro r a hact
    simp [Registry.pollOrder, hact]

/-! ## Line numbers -/

theorem acceptedFrom_append (s a : SourceId) (line : Nat) (log : List (SourceId × Nat)) :
    acceptedFrom s (log ++ [(a, line)]) =
      if a = s then acceptedFrom s log ++ [line] else acceptedFrom s log := by
  unfold acceptedFrom
  by_cases h : a = s
  · simp [List.filter_append, h]
  · simp [List.filter_append, h]

theorem Core.lineInv_of_same (chan0 : SourceId → GCodeSource) (c c' : Core)
    (h : Core.LineInv chan0 c) (ha : c'.accepted = c.accepted)
    (hl : ∀ s, (c'.chan s).lastLineNumber = (c.chan s).lastLineNumber) :
    Core.LineInv chan0 c' := by
  intro s
  rw [ha, hl s]
  exact h s

theorem Core.requestResend_accepted (c : Core) (a : SourceId) :
    (c.requestResend a).accepted = c.accepted := by
  unfold Core.requestResend
  split <;> rfl

theorem Core.requestResend_lastLineNumber (c : Core) (a s : SourceId) :
    ((c.requestResend a).chan s).lastLineNumber = (c.chan s).lastLineNumber := by
  unfold Core.requestResend
  split
  · show ((c.setChan a _).chan s).lastLineNumber = _
    rw [Core.setChan_chan]
    split
    · rename_i hs
      rw [hs]
    · rfl
  · exact Core.emit_lastLineNumber c a s _

theorem Core.setFatal_accepted (c : Core) (msg : String) :
    (c.setFatal msg).accepted = c.accepted := by
  unfold Core.setFatal
  split
  · unfold Core.reportFatalError
    simp
  · rfl

theorem Core.setFatal_lastLineNumber (c : Core) (msg : String) (s : SourceId) :
    ((c.setFatal msg).chan s).lastLineNumber = (c.chan s).lastLineNumber := by
  unfold Core.setFatal
  split
  · unfold Core.reportFatalError
    simp
  · rfl

theorem Core.checkAndPushCommand_lineInv (cfg : Build) (chan0 : SourceId → GCodeSource)
    (c : Core) (a : SourceId) (binary : Bool) (cmd : GCode) (line : Nat)
    (h : Core.LineInv chan0 c) :
    Core.LineInv chan0 (c.checkAndPushCommand cfg a binary cmd line) := by
  have hset : ∀ (ch : GCodeSource) (s : SourceId),
      ch.lastLineNumber = (c.chan a).lastLineNumber →
      ((c.setChan a ch).chan s).lastLineNumber = (c.chan s).lastLineNumber := by
    intro ch s hch
    rw [Core.setChan_chan]
    split
    · rename_i hs
      rw [hs, hch]
    · rfl
  unfold Core.checkAndPushCommand
  split
  · split
    · rename_i hline
      split
      · exact h
      · intro s
        obtain ⟨h1, h2⟩ := h s
        show ((c.setChan a _).chan s).lastLineNumber % 2 ^ 32 =
            ((chan0 s).lastLineNumber +
              (acceptedFrom s (c.accepted ++ [(a, line)])).length) % 2 ^ 32 ∧
          ∀ i, i < (acceptedFrom s (c.accepted ++ [(a, line)])).length →
            (acceptedFrom s (c.accepted ++ [(a, line)]))[i]? =
              some (((chan0 s).lastLineNumber + i + 1) % 2 ^ 32)
        rw [acceptedFrom_append, Core.setChan_chan]
        by_cases hs : s = a
        · subst hs
          simp only [if_true, List.length_append, List.length_singleton]
          constructor
          · rw [hline]
            omega
          · intro i hi
            by_cases hi' : i < (acceptedFrom s c.accepted).length
            · rw [List.getElem?_append_left hi']
              exact h2 i hi'
            · have hi'' : i = (acceptedFrom s c.accepted).length := by omega
              rw [hi'', List.getElem?_append_right (Nat.le_refl _)]
              simp only [Nat.sub_self, List.getElem?_cons_zero, Option.some.injEq]
              rw [hline]
              omega
        · have hs' : ¬ a = s := fun e => hs e.symm
          simp only [hs, hs', if_false]
          exact ⟨h1, h2⟩
    · split
      · exact Core.lineInv_of_same chan0 c _ h rfl (fun s => Core.emit_lastLineNumber c a s _)
      · refine Core.lineInv_of_same chan0 c _ h ?_ ?_
        · rw [Core.requestResend_accepted]
          rfl
        · intro s
          rw [Core.requestResend_lastLineNumber]
          exact hset _ s rfl
  · split
    · exact h
    · exact Core.lineInv_of_same chan0 c _ h rfl (fun _ => rfl)

theorem Core.completeFrame_lineInv (cfg : Build) (chan0 : SourceId → GCodeSource)
    (c : Core) (a : SourceId) (binary : Bool) (stored : List (SourceId × Nat))
    (h : Core.LineInv chan0 c) : Core.LineInv chan0 (c.completeFrame cfg a binary stored) := by
  have h0 : ∀ n : Nat, Core.LineInv chan0 { c with formatErrors := n } := fun n =>
    Core.lineInv_of_same chan0 c _ h rfl (fun _ => rfl)
  have hfatal : ∀ (d : Core) (msg : String), Core.LineInv chan0 d →
      Core.LineInv chan0 (d.setFatal msg) := fun d msg hd =>
    Core.lineInv_of_same chan0 d _ hd (Core.setFatal_accepted d msg)
      (Core.setFatal_lastLineNumber d msg)
  unfold Core.completeFrame
  simp only
  repeat' split
  all_goals first
    | exact Core.lineInv_of_same chan0 c _ h (Core.requestResend_accepted c a)
        (Core.requestResend_lastLineNumber c a)
    | exact Core.checkAndPushCommand_lineInv cfg chan0 _ a _ _ _ (h0 _)
    | exact hfatal _ _ (Core.checkAndPushCommand_lineInv cfg chan0 _ a _ _ _ (h0 _))

theorem Core.pull_lineInv (cfg : Build) (chan0 : SourceId → GCodeSource) (c : Core)
    (a : SourceId) (h : Core.LineInv chan0 c) : Core.LineInv chan0 (c.pull cfg a) := by
  have hset : ∀ (ch : GCodeSource) (s : SourceId),
      ch.lastLineNumber = (c.chan a).lastLineNumber →
      ((c.setChan a ch).chan s).lastLineNumber = (c.chan s).lastLineNumber := by
    intro ch s hch
    rw [Core.setChan_chan]
    split
    · rename_i hs
      rw [hs, hch]
    · rfl
  unfold Core.pull
  simp only
  split
  · exact Core.lineInv_of_same chan0 c _ h rfl (fun s => hset _ s rfl)
  · apply Core.completeFrame_lineInv
    exact Core.lineInv_of_same chan0 c _ h rfl (fun s => hset _ s rfl)
  · refine Core.lineInv_of_same chan0 c _ h ?_ ?_
    · rw [Core.requestResend_accepted]
      rfl
    · intro s
      rw [Core.requestResend_lastLineNumber]
      exact hset _ s rfl

theorem Core.rotateSource_accepted (c : Core) : c.rotateSource.accepted = c.accepted := by
  unfold Core.rotateSource
  repeat' split
  all_goals rfl

theorem Core.arbitrate_lineInv (chan0 : SourceId → GCodeSource) (c : Core)
    (h : Core.LineInv chan0 c) : Core.LineInv chan0 c.arbitrate := by
  unfold Core.arbitrate
  split
  · exact Core.lineInv_of_same chan0 c _ h (Core.rotateSource_accepted c)
      (fun s => by rw [Core.rotateSource_chan])
  · exact h

theorem Core.readFromSerial_lineInv (cfg : Build) (chan0 : SourceId → GCodeSource)
    (c : Core) (h : Core.LineInv chan0 c) : Core.LineInv chan0 (c.readFromSerial cfg) := by
  have h1 := Core.arbitrate_lineInv chan0 c h
  unfold Core.readFromSerial
  repeat' split
  all_goals first
    | exact h
    | exact h1
    | exact Core.pull_lineInv cfg chan0 _ _ h1

theorem Core.apply_lineInv (cfg : Build) (chan0 : SourceId → GCodeSource) (c : Core)
    (op : Op) (h : Core.LineInv chan0 c) : Core.LineInv chan0 (c.apply cfg op) := by
  cases op with
  | deliver s data =>
    refine Core.lineInv_of_same chan0 c _ h rfl ?_
    intro t
    show ((c.setChan s _).chan t).lastLineNumber = _
    rw [Core.setChan_chan]
    split
    · rename_i ht
      rw [ht]
    · rfl
  | registerSource s =>
    simp only [Core.apply, Core.registerSource]
    cases c.reg.registerSource s (c.chan s).supportsWrite with
    | error e => exact h
    | ok r => exact Core.lineInv_of_same chan0 c _ h rfl (fun _ => rfl)
  | removeSource s => exact Core.lineInv_of_same chan0 c _ h rfl (fun _ => rfl)
  | rotateSource =>
    exact Core.lineInv_of_same chan0 c _ h (Core.rotateSource_accepted c)
      (fun s => by simp only [Core.apply]; rw [Core.rotateSource_chan])
  | readFromSerial => exact Core.readFromSerial_lineInv cfg chan0 c h
  | pushCommand cmd =>
    simp only [Core.apply, Core.pushCommand]
    cases Ring.pushCommand cfg.GCODE_BUFFER_SIZE c.ring cmd with
    | error e => exact h
    | ok r => exact Core.lineInv_of_same chan0 c _ h rfl (fun _ => rfl)
  | popCurrentCommand => exact Core.lineInv_of_same chan0 c _ h rfl (fun _ => rfl)
  | executeString cmd => exact Core.lineInv_of_same chan0 c _ h rfl (fun _ => rfl)
  | keepAlive state now =>
    simp only [Core.apply, Core.keepAlive]
    repeat' split
    all_goals first
      | exact h
      | exact Core.lineInv_of_same chan0 c _ h (by simp) (fun s => by simp)
  | reportFatalError =>
    simp only [Core.apply, Core.reportFatalError]
    split
    · exact h
    · exact Core.lineInv_of_same chan0 c _ h (by simp) (fun s => by simp)
  | writeToAll byte =>
    exact Core.lineInv_of_same chan0 c _ h (by simp [Core.apply, Core.writeToAll])
      (fun s => by simp [Core.apply, Core.writeToAll])

theorem Core.run_lineInv (cfg : Build) (chan0 : SourceId → GCodeSource) (ops : List Op)
    (c : Core) (h : Core.LineInv chan0 c) : Core.LineInv chan0 (Core.run cfg ops c) := by
  induction ops generalizing c with
  | nil => exact h
  | cons op ops ih => exact ih _ (Core.apply_lineInv cfg chan0 c op h)

theorem Core.checkAndPushCommand_rejects (cfg : Build) (c : Core) (a : SourceId)
    (binary : Bool) (cmd : GCode) (line : Nat) (hN : cmd.hasN = true)
    (hne : line ≠ ((c.chan a).lastLineNumber + 1) % 2 ^ 32) :
    (c.checkAndPushCommand cfg a binary cmd line).ring = c.ring ∧
    (c.checkAndPushCommand cfg a binary cmd line).accepted = c.accepted ∧
    (∀ t, ((c.checkAndPushCommand cfg a binary cmd line).chan t).lastLineNumber =
      (c.chan t).lastLineNumber) ∧
    (line ≤ (c.chan a).lastLineNumber →
      c.checkAndPushCommand cfg a binary cmd line = c.emit a Output.ack) ∧
    ((c.chan a).lastLineNumber < line →
      ((c.checkAndPushCommand cfg a binary cmd line).chan a).waitingForResend =
        (cfg.resendWait : Int) ∧
      0 ≤ ((c.checkAndPushCommand cfg a binary cmd line).chan a).waitingForResend) := by
  by_cases hdup : line ≤ (c.chan a).lastLineNumber
  · have he : c.checkAndPushCommand cfg a binary cmd line = c.emit a Output.ack := by
      unfold Core.checkAndPushCommand
      rw [if_pos hN, if_neg hne, if_pos hdup]
    rw [he]
    refine ⟨rfl, rfl, fun t => Core.emit_lastLineNumber c a t _, fun _ => rfl, ?_⟩
    intro hgap
    omega
  · have he : c.checkAndPushCommand cfg a binary cmd line =
        Core.requestResend
          (c.setChan a { c.chan a with waitingForResend := (cfg.resendWait : Int) }) a := by
      unfold Core.checkAndPushCommand
      rw [if_pos hN, if_neg hne, if_neg hdup]
    have hw : ((Core.requestResend
          (c.setChan a { c.chan a with waitingForResend := (cfg.resendWait : Int) }) a).chan
          a).waitingForResend = (cfg.resendWait : Int) := by
      unfold Core.requestResend
      split
      · simp [Core.removeSource, Core.setChan]
      · simp [Core.setChan]
    rw [he]
    refine ⟨?_, ?_, ?_, fun h => absurd h hdup, fun _ => ⟨hw, ?_⟩⟩
    · unfold Core.requestResend
      split <;> rfl
    · rw [Core.requestResend_accepted]
      rfl
    · intro t
      rw [Core.requestResend_lastLineNumber, Core.setChan_chan]
      split
      · rename_i ht
        rw [ht]
      · rfl
    · rw [hw]
      exact Int.natCast_nonneg _

theorem Core.checkAndPushCommand_advance (cfg : Build) (c : Core) (a : SourceId)
    (binary : Bool) (cmd : GCode) (line : Nat) (t : SourceId)
    (hch : ((c.checkAndPushCommand cfg a binary cmd line).chan t).lastLineNumber ≠
      (c.chan t).lastLineNumber) :
    t = a ∧ line = ((c.chan a).lastLineNumber + 1) % 2 ^ 32 ∧
    (c.checkAndPushCommand cfg a binary cmd line).accepted = c.accepted ++ [(a, line)] ∧
    Ring.pushCommand cfg.GCODE_BUFFER_SIZE c.ring cmd =
      .ok (c.checkAndPushCommand cfg a binary cmd line).ring := by
  by_cases hN : cmd.hasN = true
  · by_cases hline : line = ((c.chan a).lastLineNumber + 1) % 2 ^ 32
    · cases hp : Ring.pushCommand cfg.GCODE_BUFFER_SIZE c.ring cmd with
      | error e =>
        exfalso
        apply hch
        unfold Core.checkAndPushCommand
        rw [if_pos hN, if_pos hline, hp]
      | ok r =>
        have he : c.checkAndPushCommand cfg a binary cmd line =
            { c.setChan a
                { c.chan a with
                  lastLineNumber := line, waitingForResend := -1,
                  wasLastCommandReceivedAsBinary := binary } with
              ring := r, accepted := c.accepted ++ [(a, line)] } := by
          unfold Core.checkAndPushCommand
          rw [if_pos hN, if_pos hline, hp]
        rw [he] at hch ⊢
        refine ⟨?_, hline, rfl, rfl⟩
        by_contra hta
        apply hch
        show ((c.setChan a _).chan t).lastLineNumber = _
        rw [Core.setChan_chan]
        simp [hta]
    · exact absurd ((Core.checkAndPushCommand_rejects cfg c a binary cmd line hN hline).2.2.1 t)
        hch
  · exfalso
    apply hch
    unfold Core.checkAndPushCommand
    rw [if_neg hN]
    cases Ring.pushCommand cfg.GCODE_BUFFER_SIZE c.ring cmd <;> rfl

/-- C7: in every state reached from start-up, the commands accepted into the
ring buffer from a channel `s` carry line numbers that increase by exactly 1
(modulo `2 ^ 32`, the width of `lastLineNumber`): the `i`-th accepted one is
the initial `lastLineNumber` plus `i + 1` (without any reduction as long as
that stays below `2 ^ 32`), each one is its predecessor plus 1, and
`lastLineNumber` has advanced once per accepted command. A completed
command whose line number is not `lastLineNumber + 1` is not queued and
advances no `lastLineNumber`; a duplicate (line number at most
`lastLineNumber`) is only acknowledged; a gap puts the channel into
waiting-for-resend (`waitingForResend >= 0`). `lastLineNumber` changes only
when the command is accepted, that is pushed into the ring buffer. -/
theorem accepted_line_numbers_consecutive (cfg : Build) (chan : SourceId → GCodeSource)
    (interval : Nat) (ops : List Op) (s : SourceId) :
    (∀ i, i < (acceptedFrom s (Core.run cfg ops (Core.init cfg chan interval)).accepted).length →
      (acceptedFrom s (Core.run cfg ops (Core.init cfg chan interval)).accepted)[i]? =
        some (((chan s).lastLineNumber + i + 1) % 2 ^ 32)) ∧
    (∀ i, i < (acceptedFrom s (Core.run cfg ops (Core.init cfg chan interval)).accepted).length →
      (chan s).lastLineNumber + i + 1 < 2 ^ 32 →
      (acceptedFrom s (Core.run cfg ops (Core.init cfg chan interval)).accepted)[i]? =
        some ((chan s).lastLineNumber + i + 1)) ∧
    (∀ i x y,
      (acceptedFrom s (Core.run cfg ops (Core.init cfg chan interval)).accepted)[i]? = some x →
      (acceptedFrom s (Core.run cfg ops (Core.init cfg chan interval)).accepted)[i + 1]? =
        some y →
      y = (x + 1) % 2 ^ 32) ∧
    (((Core.run cfg ops (Core.init cfg chan interval)).chan s).lastLineNumber % 2 ^ 32 =
      ((chan s).lastLineNumber +
        (acceptedFrom s (Core.run cfg ops (Core.init cfg chan interval)).accepted).length) %
        2 ^ 32) ∧
    (∀ (c : Core) (a : SourceId) (binary : Bool) (cmd : GCode) (line : Nat),
      cmd.hasN = true → line ≠ ((c.chan a).lastLineNumber + 1) % 2 ^ 32 →
      (c.checkAndPushCommand cfg a binary cmd line).ring = c.ring ∧
      (c.checkAndPushCommand cfg a binary cmd line).accepted = c.accepted ∧
      (∀ t, ((c.checkAndPushCommand cfg a binary cmd line).chan t).lastLineNumber =
        (c.chan t).lastLineNumber) ∧
      (line ≤ (c.chan a).lastLineNumber →
        c.checkAndPushCommand cfg a binary cmd line = c.emit a Output.ack) ∧
      ((c.chan a).lastLineNumber < line →
        ((c.checkAndPushCommand cfg a binary cmd line).chan a).waitingForResend =
          (cfg.resendWait : Int) ∧
        0 ≤ ((c.checkAndPushCommand cfg a binary cmd line).chan a).waitingForResend)) ∧
    (∀ (c : Core) (a : SourceId) (binary : Bool) (cmd : GCode) (line : Nat) (t : SourceId),
      ((c.checkAndPushCommand cfg a binary cmd line).chan t).lastLineNumber ≠
        (c.chan t).lastLineNumber →
      t = a ∧ line = ((c.chan a).lastLineNumber + 1) % 2 ^ 32 ∧
      (c.checkAndPushCommand cfg a binary cmd line).accepted = c.accepted ++ [(a, line)] ∧
      Ring.pushCommand cfg.GCODE_BUFFER_SIZE c.ring cmd =
        .ok (c.checkAndPushCommand cfg a binary cmd line).ring) := by
  have hinit : Core.LineInv chan (Core.init cfg chan interval) := by
    intro t
    simp [Core.init, acceptedFrom]
  have hinv := Core.run_lineInv cfg chan ops _ hinit s
  generalize Core.run cfg ops (Core.init cfg chan interval) = c at hinv
  obtain ⟨hlast, hidx⟩ := hinv
  refine ⟨hidx, ?_, ?_, hlast, ?_, ?_⟩
  · intro i hi hsmall
    rw [hidx i hi, Nat.mod_eq_of_lt hsmall]
  · intro i x y hx hy
    have hi1 : i + 1 < (acceptedFrom s c.accepted).length := by
      by_contra hge
      rw [List.getElem?_eq_none (by omega)] at hy
      cases hy
    have hx' := hidx i (by omega)
    have hy' := hidx (i + 1) hi1
    rw [hx] at hx'
    rw [hy] at hy'
    cases hx'
    cases hy'
    omega
  · intro c a binary cmd line hN hne
    exact Core.checkAndPushCommand_rejects cfg c a binary cmd line hN hne
  · intro c a binary cmd line t hch
    exact Core.checkAndPushCommand_advance cfg c a binary cmd line t hch

/-- Witness for C7: in the resend scenario on the sample core the second
command accepted from channel 0 carries line number 2. -/
theorem accepted_line_numbers_consecutive_witness :
    (acceptedFrom 0 (Core.run sampleBuild sampleResendOps sampleInit).accepted)[1]? =
      some (((sampleChan 0).lastLineNumber + 1 + 1) % 2 ^ 32) :=
  (accepted_line_numbers_consecutive sampleBuild sampleChan 2000 sampleResendOps 0).1 1
    (by decide)

end Repetier

namespace Repetier

/-! ## Presence mutators -/

theorem testBit_or_pow_mod (p k i : Nat) :
    ((p ||| 2 ^ k) % 2 ^ 16).testBit i =
      (decide (i < 16) && (p.testBit i || decide (k = i))) := by
  rw [Nat.testBit_mod_two_pow, Nat.testBit_or, Nat.testBit_two_pow]

theorem testBit_and_mask_mod (p m k i : Nat) (hm : m = (2 ^ 16 - 1) ^^^ 2 ^ k) :
    ((p &&& m) % 2 ^ 16).testBit i =
      (decide (i < 16) && (p.testBit i && !decide (k = i))) := by
  rw [hm, Nat.testBit_mod_two_pow, Nat.testBit_and, Nat.testBit_xor,
    Nat.testBit_two_pow_sub_one, Nat.testBit_two_pow]
  by_cases h16 : i < 16 <;> by_cases hk : k = i <;> simp [h16, hk]

theorem testBit_of_lt_word (p i : Nat) (hp : p < 65536) (hi : ¬ i < 16) :
    p.testBit i = false := by
  apply Nat.testBit_lt_two_pow
  have h1 : (2 : Nat) ^ 16 ≤ 2 ^ i := Nat.pow_le_pow_right (by decide) (by omega)
  have h2 : (2 : Nat) ^ 16 = 65536 := by norm_num
  omega

theorem GCode.setX_params_testBit (g : GCode) (set : Int) (i : Nat) :
    (g.setX set).params.testBit i =
      (decide (i < 16) && if i = 3 then decide (set ≠ 0) else g.params.testBit i) := by
  unfold GCode.setX
  split
  · rename_i h
    show ((g.params ||| 2 ^ 3) % 2 ^ 16).testBit i = _
    rw [testBit_or_pow_mod]
    by_cases h3 : i = 3
    · simp [h3, h]
    · have h3' : ¬ 3 = i := fun e => h3 e.symm
      simp [h3, h3']
  · rename_i h
    show ((g.params &&& (65535 - 8)) % 2 ^ 16).testBit i = _
    rw [testBit_and_mask_mod g.params (65535 - 8) 3 i (by decide)]
    by_cases h3 : i = 3
    · simp [h3, h]
    · have h3' : ¬ 3 = i := fun e => h3 e.symm
      simp [h3, h3']

theorem GCode.setY_params_testBit (g : GCode) (set : Int) (i : Nat) :
    (g.setY set).params.testBit i =
      (decide (i < 16) && if i = 4 then decide (set ≠ 0) else g.params.testBit i) := by
  unfold GCode.setY
  split
  · rename_i h
    show ((g.params ||| 2 ^ 4) % 2 ^ 16).testBit i = _
    rw [testBit_or_pow_mod]
    by_cases h3 : i = 4
    · simp [h3, h]
    · have h3' : ¬ 4 = i := fun e => h3 e.symm
      simp [h3, h3']
  · rename_i h
    show ((g.params &&& (65535 - 16)) % 2 ^ 16).testBit i = _
    rw [testBit_and_mask_mod g.params (65535 - 16) 4 i (by decide)]
    by_cases h3 : i = 4
    · simp [h3, h]
    · have h3' : ¬ 4 = i := fun e => h3 e.symm
      simp [h3, h3']

theorem GCode.setZ_params_testBit (g : GCode) (set : Int) (i : Nat) :
    (g.setZ set).params.testBit i =
      (decide (i < 16) && if i = 5 then decide (set ≠ 0) else g.params.testBit i) := by
  unfold GCode.setZ
  split
  · rename_i h
    show ((g.params ||| 2 ^ 5) % 2 ^ 16).testBit i = _
    rw [testBit_or_pow_mod]
    by_cases h3 : i = 5
    · simp [h3, h]
    · have h3' : ¬ 5 = i := fun e => h3 e.symm
      simp [h3, h3']
  · rename_i h
    show ((g.params &&& (65535 - 32)) % 2 ^ 16).testBit i = _
    rw [testBit_and_mask_mod g.params (65535 - 32) 5 i (by decide)]
    by_cases h3 : i = 5
    · simp [h3, h]
    · have h3' : ¬ 5 = i := fun e => h3 e.symm
      simp [h3, h3']

theorem GCode.setFormatError_params2_testBit (g : GCode) (i : Nat) :
    g.setFormatError.params2.testBit i =
      (decide (i < 16) && if i = 15 then true else g.params2.testBit i) := by
  show ((g.params2 ||| 2 ^ 15) % 2 ^ 16).testBit i = _
  rw [testBit_or_pow_mod]
  by_cases h3 : i = 15
  · simp [h3]
  · have h3' : ¬ 15 = i := fun e => h3 e.symm
    simp [h3, h3']

end Repetier

namespace Repetier

theorem and_pow_of_testBit (p q k j : Nat)
    (h : ∀ i, i ≠ k → q.testBit i = p.testBit i) (hj : j ≠ k) :
    q &&& 2 ^ j = p &&& 2 ^ j := by
  rw [Nat.and_two_pow, Nat.and_two_pow, h j hj]

theorem testBit_keep (p q k : Nat) (b : Bool) (hp : p < 65536)
    (h : ∀ i, q.testBit i = (decide (i < 16) && if i = k then b else p.testBit i)) :
    ∀ i, i ≠ k → q.testBit i = p.testBit i := by
  intro i hi
  rw [h i]
  by_cases h16 : i < 16
  · simp [h16, hi]
  · simp [h16, testBit_of_lt_word p i hp h16]

theorem GCode.setX_rest (g : GCode) (set : Int) :
    g.setX set = { g with params := (g.setX set).params } := by
  unfold GCode.setX
  split <;> rfl

theorem GCode.setY_rest (g : GCode) (set : Int) :
    g.setY set = { g with params := (g.setY set).params } := by
  unfold GCode.setY
  split <;> rfl

theorem GCode.setZ_rest (g : GCode) (set : Int) :
    g.setZ set = { g with params := (g.setZ set).params } := by
  unfold GCode.setZ
  split <;> rfl

theorem GCode.setX_params_lt (g : GCode) (set : Int) : (g.setX set).params < 65536 := by
  unfold GCode.setX
  split <;> exact Nat.mod_lt _ (by decide)

theorem GCode.setY_params_lt (g : GCode) (set : Int) : (g.setY set).params < 65536 := by
  unfold GCode.setY
  split <;> exact Nat.mod_lt _ (by decide)

theorem GCode.setZ_params_lt (g : GCode) (set : Int) : (g.setZ set).params < 65536 := by
  unfold GCode.setZ
  split <;> exact Nat.mod_lt _ (by decide)

/-- C12: for every command record with 16 bit presence words and every
value `set` of the `char` argument, after `setX(set)` `hasX()` is true exactly when `set != 0`,
every member other than `params` (so `params2`) is unchanged, `params` still
fits 16 bits, and every bit of `params` other than bit 3 is unchanged, among
them the binary marker bit 128, the V2 bit and the string bit; the same holds
for `setY` with bit 4 and `hasY`, and for `setZ` with bit 5 and `hasZ`. -/
theorem setXYZ_change_one_bit (g : GCode) (set : Int) (hwf : g.wf) :
    (((g.setX set).hasX = true ↔ set ≠ 0) ∧
      g.setX set = { g with params := (g.setX set).params } ∧
      (g.setX set).params2 = g.params2 ∧ (g.setX set).wf ∧
      (∀ i, i ≠ 3 → (g.setX set).params.testBit i = g.params.testBit i) ∧
      (g.setX set).params &&& 128 = g.params &&& 128 ∧
      (g.setX set).isV2 = g.isV2 ∧ (g.setX set).hasString = g.hasString) ∧
    (((g.setY set).hasY = true ↔ set ≠ 0) ∧
      g.setY set = { g with params := (g.setY set).params } ∧
      (g.setY set).params2 = g.params2 ∧ (g.setY set).wf ∧
      (∀ i, i ≠ 4 → (g.setY set).params.testBit i = g.params.testBit i) ∧
      (g.setY set).params &&& 128 = g.params &&& 128 ∧
      (g.setY set).isV2 = g.isV2 ∧ (g.setY set).hasString = g.hasString) ∧
    (((g.setZ set).hasZ = true ↔ set ≠ 0) ∧
      g.setZ set = { g with params := (g.setZ set).params } ∧
      (g.setZ set).params2 = g.params2 ∧ (g.setZ set).wf ∧
      (∀ i, i ≠ 5 → (g.setZ set).params.testBit i = g.params.testBit i) ∧
      (g.setZ set).params &&& 128 = g.params &&& 128 ∧
      (g.setZ set).isV2 = g.isV2 ∧ (g.setZ set).hasString = g.hasString) := by
  obtain ⟨hp, hq⟩ := hwf
  have hx := testBit_keep g.params (g.setX set).params 3 _ hp (GCode.setX_params_testBit g set)
  have hy := testBit_keep g.params (g.setY set).params 4 _ hp (GCode.setY_params_testBit g set)
  have hz := testBit_keep g.params (g.setZ set).params 5 _ hp (GCode.setZ_params_testBit g set)
  have hx2 : (g.setX set).params2 = g.params2 := by rw [GCode.setX_rest]
  have hy2 : (g.setY set).params2 = g.params2 := by rw [GCode.setY_rest]
  have hz2 : (g.setZ set).params2 = g.params2 := by rw [GCode.setZ_rest]
  refine ⟨⟨?_, GCode.setX_rest g set, hx2, ⟨GCode.setX_params_lt g set, by rw [hx2]; exact hq⟩,
      hx, ?_, ?_, ?_⟩,
    ⟨?_, GCode.setY_rest g set, hy2, ⟨GCode.setY_params_lt g set, by rw [hy2]; exact hq⟩,
      hy, ?_, ?_, ?_⟩,
    ⟨?_, GCode.setZ_rest g set, hz2, ⟨GCode.setZ_params_lt g set, by rw [hz2]; exact hq⟩,
      hz, ?_, ?_, ?_⟩⟩
  · rw [(accessor_bits (g.setX set)).1.2.2.2.1, GCode.setX_params_testBit]
    simp
  · exact and_pow_of_testBit g.params (g.setX set).params 3 7 hx (by decide)
  · show (((g.setX set).params &&& 2 ^ 12) != 0) = ((g.params &&& 2 ^ 12) != 0)
    rw [and_pow_of_testBit g.params (g.setX set).params 3 12 hx (by decide)]
  · show (((g.setX set).params &&& 2 ^ 15) != 0) = ((g.params &&& 2 ^ 15) != 0)
    rw [and_pow_of_testBit g.params (g.setX set).params 3 15 hx (by decide)]
  · rw [(accessor_bits (g.setY set)).1.2.2.2.2.1, GCode.setY_params_testBit]
    simp
  · exact and_pow_of_testBit g.params (g.setY set).params 4 7 hy (by decide)
  · show (((g.setY set).params &&& 2 ^ 12) != 0) = ((g.params &&& 2 ^ 12) != 0)
    rw [and_pow_of_testBit g.params (g.setY set).params 4 12 hy (by decide)]
  · show (((g.setY set).params &&& 2 ^ 15) != 0) = ((g.params &&& 2 ^ 15) != 0)
    rw [and_pow_of_testBit g.params (g.setY set).params 4 15 hy (by decide)]
  · rw [(accessor_bits (g.setZ set)).1.2.2.2.2.2.1, GCode.setZ_params_testBit]
    simp
  · exact and_pow_of_testBit g.params (g.setZ set).params 5 7 hz (by decide)
  · show (((g.setZ set).params &&& 2 ^ 12) != 0) = ((g.params &&& 2 ^ 12) != 0)
    rw [and_pow_of_testBit g.params (g.setZ set).params 5 12 hz (by decide)]
  · show (((g.setZ set).params &&& 2 ^ 15) != 0) = ((g.params &&& 2 ^ 15) != 0)
    rw [and_pow_of_testBit g.params (g.setZ set).params 5 15 hz (by decide)]

/-- Witness for C12: on the sample record, which has 16 bit presence words,
`setX(1)` makes `hasX()` true. -/
theorem setXYZ_change_one_bit_witness :
    sampleCommand.wf ∧ ((sampleCommand.setX 1).hasX = true ↔ (1 : Int) ≠ 0) :=
  ⟨⟨by decide, by decide⟩,
   (setXYZ_change_one_bit sampleCommand 1 ⟨by decide, by decide⟩).1.1⟩

end Repetier

namespace Repetier

theorem GCode.setFormatError_rest (g : GCode) :
    g.setFormatError = { g with params2 := g.setFormatError.params2 } := rfl

theorem GCode.setFormatError_twice (g : GCode) :
    g.setFormatError.setFormatError = g.setFormatError := by
  have h : g.setFormatError.setFormatError.params2 = g.setFormatError.params2 := by
    apply Nat.eq_of_testBit_eq
    intro i
    rw [GCode.setFormatError_params2_testBit, GCode.setFormatError_params2_testBit]
    by_cases h16 : i < 16 <;> by_cases h15 : i = 15 <;> simp [h16, h15]
  rw [GCode.setFormatError_rest g.setFormatError, h]

/-- C11: for every command record with 16 bit presence words, after
`setFormatError()` `hasFormatError()` is true, `params` and every member
other than `params2` are unchanged, `params2` still fits 16 bits and every
bit of it other than bit 15 is unchanged; so `hasN`, `hasM`, `hasG`, `hasX`,
`hasY`, `hasZ`, `hasNoXYZ`, `hasE`, `hasF`, `hasT`, `hasS`, `hasP`, `isV2`,
`hasString`, `hasI` ... `hasO`, `getS` and `getP` return what they returned
before. Calling `setFormatError()` twice gives the same record as calling it
once. -/
theorem setFormatError_changes_one_bit (g : GCode) (dflt : Int) (hwf : g.wf) :
    g.setFormatError.hasFormatError = true ∧
    g.setFormatError.params = g.params ∧
    g.setFormatError = { g with params2 := g.setFormatError.params2 } ∧
    g.setFormatError.wf ∧
    (∀ i, i ≠ 15 → g.setFormatError.params2.testBit i = g.params2.testBit i) ∧
    (g.setFormatError.hasN = g.hasN ∧ g.setFormatError.hasM = g.hasM ∧
      g.setFormatError.hasG = g.hasG ∧ g.setFormatError.hasX = g.hasX ∧
      g.setFormatError.hasY = g.hasY ∧ g.setFormatError.hasZ = g.hasZ ∧
      g.setFormatError.hasNoXYZ = g.hasNoXYZ ∧ g.setFormatError.hasE = g.hasE ∧
      g.setFormatError.hasF = g.hasF ∧ g.setFormatError.hasT = g.hasT ∧
      g.setFormatError.hasS = g.hasS ∧ g.setFormatError.hasP = g.hasP ∧
      g.setFormatError.isV2 = g.isV2 ∧ g.setFormatError.hasString = g.hasString ∧
      g.setFormatError.getS dflt = g.getS dflt ∧ g.setFormatError.getP dflt = g.getP dflt) ∧
    (g.setFormatError.hasI = g.hasI ∧ g.setFormatError.hasJ = g.hasJ ∧
      g.setFormatError.hasR = g.hasR ∧ g.setFormatError.hasD = g.hasD ∧
      g.setFormatError.hasC = g.hasC ∧ g.setFormatError.hasH = g.hasH ∧
      g.setFormatError.hasA = g.hasA ∧ g.setFormatError.hasB = g.hasB ∧
      g.setFormatError.hasK = g.hasK ∧ g.setFormatError.hasL = g.hasL ∧
      g.setFormatError.hasO = g.hasO) ∧
    g.setFormatError.setFormatError = g.setFormatError := by
  obtain ⟨hp, hq⟩ := hwf
  have hk := testBit_keep g.params2 g.setFormatError.params2 15 _ hq
    (GCode.setFormatError_params2_testBit g)
  have hb : ∀ j, j ≠ 15 →
      ((g.setFormatError.params2 &&& 2 ^ j) != 0) = ((g.params2 &&& 2 ^ j) != 0) := by
    intro j hj
    rw [and_pow_of_testBit g.params2 g.setFormatError.params2 15 j hk hj]
  refine ⟨?_, rfl, rfl, ⟨hp, Nat.mod_lt _ (by decide)⟩, hk, ?_, ?_,
    GCode.setFormatError_twice g⟩
  · rw [(accessor_bits g.setFormatError).2.2.2.2.2.2.2.2.2.2.2.2,
      GCode.setFormatError_params2_testBit]
    simp
  · exact ⟨rfl, rfl, rfl, rfl, rfl, rfl, rfl, rfl, rfl, rfl, rfl, rfl, rfl, rfl, rfl, rfl⟩
  · exact ⟨hb 0 (by decide), hb 1 (by decide), hb 2 (by decide), hb 3 (by decide),
      hb 4 (by decide), hb 5 (by decide), hb 6 (by decide), hb 7 (by decide),
      hb 8 (by decide), hb 9 (by decide), hb 10 (by decide)⟩

/-- Witness for C11: on the sample record, which has 16 bit presence words,
`setFormatError()` makes `hasFormatError()` true. -/
theorem setFormatError_changes_one_bit_witness :
    sampleCommand.wf ∧ sampleCommand.setFormatError.hasFormatError = true :=
  ⟨⟨by decide, by decide⟩,
   (setFormatError_changes_one_bit sampleCommand 0 ⟨by decide, by decide⟩).1⟩

end Repetier

namespace Repetier

theorem GCode.hasNoXYZ_iff (g : GCode) :
    g.hasNoXYZ = true ↔ (g.hasX = false ∧ g.hasY = false ∧ g.hasZ = false) := by
  have h56 : (56 : Nat) = 8 ||| (16 ||| 32) := by decide
  have e8 : g.params &&& 8 = (g.params &&& 56) &&& 8 := by
    rw [Nat.and_assoc]
    rfl
  have e16 : g.params &&& 16 = (g.params &&& 56) &&& 16 := by
    rw [Nat.and_assoc]
    rfl
  have e32 : g.params &&& 32 = (g.params &&& 56) &&& 32 := by
    rw [Nat.and_assoc]
    rfl
  simp only [GCode.hasNoXYZ, GCode.hasX, GCode.hasY, GCode.hasZ, beq_iff_eq, bne_eq_false_iff_eq]
  constructor
  · intro h
    rw [e8, e16, e32, h]
    exact ⟨rfl, rfl, rfl⟩
  · rintro ⟨h8, h16, h32⟩
    rw [h56, Nat.and_or_distrib_left, Nat.and_or_distrib_left, h8, h16, h32]
    rfl

end Repetier

namespace Repetier

theorem GCode.hasNoXYZ_bits (g : GCode) :
    g.hasNoXYZ = (!g.params.testBit 3 && !g.params.testBit 4 && !g.params.testBit 5) := by
  have h := GCode.hasNoXYZ_iff g
  rw [(accessor_bits g).1.2.2.2.1, (accessor_bits g).1.2.2.2.2.1,
    (accessor_bits g).1.2.2.2.2.2.1] at h
  cases h3 : g.params.testBit 3 <;> cases h4 : g.params.testBit 4 <;>
    cases h5 : g.params.testBit 5 <;> simp [h3, h4, h5] at h ⊢ <;> exact h

/-- C13: `hasNoXYZ()` is true if and only if `hasX()`, `hasY()` and `hasZ()`
are all false; so it is false after `setX(1)`, after `setY(1)` and after
`setZ(1)`, and true after `setX(0)`, `setY(0)` and `setZ(0)` applied in any of
the six orders. -/
theorem hasNoXYZ_iff_no_axis (g : GCode) :
    (g.hasNoXYZ = true ↔ (g.hasX = false ∧ g.hasY = false ∧ g.hasZ = false)) ∧
    ((g.setX 1).hasNoXYZ = false ∧ (g.setY 1).hasNoXYZ = false ∧
      (g.setZ 1).hasNoXYZ = false) ∧
    ((((g.setX 0).setY 0).setZ 0).hasNoXYZ = true ∧
      (((g.setX 0).setZ 0).setY 0).hasNoXYZ = true ∧
      (((g.setY 0).setX 0).setZ 0).hasNoXYZ = true ∧
      (((g.setY 0).setZ 0).setX 0).hasNoXYZ = true ∧
      (((g.setZ 0).setX 0).setY 0).hasNoXYZ = true ∧
      (((g.setZ 0).setY 0).setX 0).hasNoXYZ = true) := by
  refine ⟨GCode.hasNoXYZ_iff g, ⟨?_, ?_, ?_⟩, ⟨?_, ?_, ?_, ?_, ?_, ?_⟩⟩
  all_goals
    simp [GCode.hasNoXYZ_bits, GCode.setX_params_testBit, GCode.setY_params_testBit,
      GCode.setZ_params_testBit]

end Repetier

namespace Repetier

theorem GCode.eq_of_words (u v : GCode) (hrest : u.payload = v.payload)
    (hp : ∀ i, u.params.testBit i = v.params.testBit i)
    (hq : ∀ i, u.params2.testBit i = v.params2.testBit i) : u = v := by
  have h1 := Nat.eq_of_testBit_eq hp
  have h2 := Nat.eq_of_testBit_eq hq
  cases u
  cases v
  simp only [GCode.payload, GCode.mk.injEq] at hrest h1 h2 ⊢
  simp_all

@[simp] theorem GCode.payload_setX (g : GCode) (a : Int) : (g.setX a).payload = g.payload := by
  rw [GCode.setX_rest]
  rfl

@[simp] theorem GCode.payload_setY (g : GCode) (a : Int) : (g.setY a).payload = g.payload := by
  rw [GCode.setY_rest]
  rfl

@[simp] theorem GCode.payload_setZ (g : GCode) (a : Int) : (g.setZ a).payload = g.payload := by
  rw [GCode.setZ_rest]
  rfl

@[simp] theorem GCode.payload_setFormatError (g : GCode) :
    g.setFormatError.payload = g.payload := rfl

@[simp] theorem GCode.params2_setX (g : GCode) (a : Int) : (g.setX a).params2 = g.params2 := by
  rw [GCode.setX_rest]

@[simp] theorem GCode.params2_setY (g : GCode) (a : Int) : (g.setY a).params2 = g.params2 := by
  rw [GCode.setY_rest]

@[simp] theorem GCode.params2_setZ (g : GCode) (a : Int) : (g.setZ a).params2 = g.params2 := by
  rw [GCode.setZ_rest]

@[simp] theorem GCode.params_setFormatError (g : GCode) :
    g.setFormatError.params = g.params := rfl

/-- C14: the presence mutators are idempotent, the last write to an axis
wins, and writes to different flags commute: for every command record and all
arguments `a`, `b`, `setX(a)` twice equals `setX(a)` once; `setX(a)` then
`setX(b)` equals `setX(b)`; `setX(a)` then `setY(b)` equals `setY(b)` then
`setX(a)`; likewise for `setY` and `setZ`, for every pair among the three,
and for each of them with `setFormatError()`. -/
theorem presence_mutators_algebra (g : GCode) (a b : Int) :
    ((g.setX a).setX a = g.setX a ∧ (g.setY a).setY a = g.setY a ∧
      (g.setZ a).setZ a = g.setZ a ∧
      g.setFormatError.setFormatError = g.setFormatError) ∧
    ((g.setX a).setX b = g.setX b ∧ (g.setY a).setY b = g.setY b ∧
      (g.setZ a).setZ b = g.setZ b) ∧
    ((g.setX a).setY b = (g.setY b).setX a ∧ (g.setX a).setZ b = (g.setZ b).setX a ∧
      (g.setY a).setZ b = (g.setZ b).setY a) ∧
    ((g.setX a).setFormatError = g.setFormatError.setX a ∧
      (g.setY a).setFormatError = g.setFormatError.setY a ∧
      (g.setZ a).setFormatError = g.setFormatError.setZ a) := by
  refine ⟨⟨?_, ?_, ?_, GCode.setFormatError_twice g⟩, ⟨?_, ?_, ?_⟩, ⟨?_, ?_, ?_⟩,
    ⟨?_, ?_, ?_⟩⟩
  all_goals
    apply GCode.eq_of_words
    · simp
    · intro i
      simp only [GCode.setX_params_testBit, GCode.setY_params_testBit,
        GCode.setZ_params_testBit, GCode.params_setFormatError]
      all_goals
        by_cases h16 : i < 16 <;> by_cases h3 : i = 3 <;> by_cases h4 : i = 4 <;>
          by_cases h5 : i = 5 <;> first | omega | simp [h16, h3, h4, h5]
    · intro i
      simp only [GCode.setFormatError_params2_testBit, GCode.params2_setX,
        GCode.params2_setY, GCode.params2_setZ]

end Repetier

namespace Repetier

/-! ## Decimal arguments -/

theorem digitsValue_append (ds : List Nat) (d : Nat) :
    digitsValue (ds ++ [d]) = digitsValue ds * 10 + (d - 48) := by
  simp [digitsValue, List.foldl_append]

theorem digitsValue_eq_decimalValue (ds : List Nat) : digitsValue ds = decimalValue ds := by
  induction ds using List.reverseRecOn with
  | nil => simp [digitsValue, decimalValue]
  | append_singleton ds d ih =>
    rw [digitsValue_append, ih]
    simp only [decimalValue, List.map_append, List.map_cons, List.map_nil,
      List.reverse_append, List.reverse_cons, List.reverse_nil, List.nil_append,
      List.singleton_append, Nat.ofDigits_cons]
    ring

theorem takeWhile_digits (digits rest : List Nat)
    (hd : ∀ d ∈ digits, isDigitC d = true)
    (hr : ∀ c, rest.head? = some c → isDigitC c = false) :
    (digits ++ rest).takeWhile isDigitC = digits := by
  induction digits with
  | nil =>
    cases rest with
    | nil => rfl
    | cons c r => simp [List.takeWhile, hr c rfl]
  | cons d ds ih =>
    have h1 : isDigitC d = true := hd d (List.mem_cons_self _ _)
    have h2 := ih (fun x hx => hd x (List.mem_cons_of_mem _ hx))
    simp [List.takeWhile, h1, h2]

theorem isDigitC_bounds (d : Nat) (h : isDigitC d = true) : 48 ≤ d ∧ d ≤ 57 := by
  simpa [isDigitC] using h

theorem strtol10_digits (d : Nat) (ds rest : List Nat)
    (hd : ∀ x ∈ d :: ds, isDigitC x = true)
    (hr : ∀ c, rest.head? = some c → isDigitC c = false) :
    strtol10 (d :: ds ++ rest) =
      { value := max LONG_MIN (min LONG_MAX (digitsValue (d :: ds) : Int)),
        consumed := (d :: ds).length } := by
  have hb := isDigitC_bounds d (hd d (List.mem_cons_self _ _))
  have hs : isSpaceC d = false := by
    simp only [isSpaceC, Bool.or_eq_false_iff, Bool.and_eq_false_iff, beq_eq_false_iff_ne,
      decide_eq_false_iff_not]
    omega
  have hsg : signOf (d :: (ds ++ rest)) = (false, 0) := by
    unfold signOf
    split
    · rename_i heq
      simp at heq
      omega
    · rename_i heq
      simp at heq
      omega
    · rfl
  have htw := takeWhile_digits (d :: ds) rest hd hr
  simp only [List.cons_append] at htw
  simp [strtol10, List.takeWhile, List.dropWhile, hs, hsg, htw]

theorem strtol10_signed (sg d : Nat) (ds rest : List Nat) (hsg : sg = 43 ∨ sg = 45)
    (hd : ∀ x ∈ d :: ds, isDigitC x = true)
    (hr : ∀ c, rest.head? = some c → isDigitC c = false) :
    strtol10 (sg :: (d :: ds ++ rest)) =
      { value := max LONG_MIN (min LONG_MAX
          (if sg = 45 then -(digitsValue (d :: ds) : Int) else (digitsValue (d :: ds) : Int))),
        consumed := 1 + (d :: ds).length } := by
  have htw := takeWhile_digits (d :: ds) rest hd hr
  simp only [List.cons_append] at htw
  rcases hsg with rfl | rfl
  · have hs : isSpaceC 43 = false := by decide
    have hsign : signOf (43 :: d :: (ds ++ rest)) = (false, 1) := rfl
    have e1 : (43 :: d :: (ds ++ rest)).takeWhile isSpaceC = [] := by
      simp [List.takeWhile, hs]
    have e2 : (43 :: d :: (ds ++ rest)).dropWhile isSpaceC = 43 :: d :: (ds ++ rest) := by
      simp [List.dropWhile, hs]
    simp only [strtol10, List.cons_append, e1, e2, hsign, List.drop_succ_cons, List.drop_zero,
      htw]
    simp
  · have hs : isSpaceC 45 = false := by decide
    have hsign : signOf (45 :: d :: (ds ++ rest)) = (true, 1) := rfl
    have e1 : (45 :: d :: (ds ++ rest)).takeWhile isSpaceC = [] := by
      simp [List.takeWhile, hs]
    have e2 : (45 :: d :: (ds ++ rest)).dropWhile isSpaceC = 45 :: d :: (ds ++ rest) := by
      simp [List.dropWhile, hs]
    simp only [strtol10, List.cons_append, e1, e2, hsign, List.drop_succ_cons, List.drop_zero,
      htw]
    simp

theorem clamp_long (v : Int) (h1 : LONG_MIN ≤ v) (h2 : v ≤ LONG_MAX) :
    max LONG_MIN (min LONG_MAX v) = v := by
  rw [min_eq_right h2, max_eq_right h1]

/-- C15: for every string made of `k >= 0` space characters, an optional
sign, and a non-empty run of decimal digits whose signed value fits in a
(32 bit) `long`, followed by the end of the string or by a character that is
not a digit, `parseLongValue` with ISO C `strtol` returns exactly that signed
decimal value; the base is 10, so `010` is ten and `0x1F` is zero. Prepending
space characters to an argument never changes the result, whatever the
conversion routine does. -/
theorem parseLongValue_decimal (k : Nat) (sign digits rest : CStr)
    (hsign : sign = [] ∨ sign = [43] ∨ sign = [45]) (hne : digits ≠ [])
    (hdig : ∀ d ∈ digits, isDigitC d = true)
    (hrest : ∀ c, rest.head? = some c → isDigitC c = false)
    (hmin : LONG_MIN ≤ signedDecimalValue sign digits)
    (hmax : signedDecimalValue sign digits ≤ LONG_MAX) :
    parseLongValue strtol10 (List.replicate k 32 ++ (sign ++ (digits ++ rest))) =
      signedDecimalValue sign digits ∧
    (∀ (strtol : CStr → Conv Int) (j : Nat) (s : CStr),
      parseLongValue strtol (List.replicate j 32 ++ s) = parseLongValue strtol s) ∧
    parseLongValue strtol10 [48, 49, 48] = 10 ∧
    parseLongValue strtol10 [48, 120, 49, 70] = 0 := by
  refine ⟨?_, ?_, by decide, by decide⟩
  · cases digits with
    | nil => exact absurd rfl hne
    | cons d ds =>
      have hb := isDigitC_bounds d (hdig d (List.mem_cons_self _ _))
      simp only [signedDecimalValue, ← digitsValue_eq_decimalValue] at hmin hmax ⊢
      rcases hsign with rfl | rfl | rfl
      · have h32 : d ≠ 32 := by omega
        simp only [if_neg (show ¬ ([] : List Nat) = [45] by decide)] at hmin hmax ⊢
        simp only [parseLongValue, skipSpaces_replicate, List.nil_append,
          List.cons_append, skipSpaces_cons_ne d _ h32]
        have h := strtol10_digits d ds rest hdig hrest
        simp only [List.cons_append] at h
        rw [h, clamp_long _ hmin hmax]
        simp
      · simp only [if_neg (show ¬ ([43] : List Nat) = [45] by decide)] at hmin hmax ⊢
        simp only [parseLongValue, skipSpaces_replicate, List.cons_append, List.nil_append,
          skipSpaces_cons_ne 43 _ (by decide)]
        have h := strtol10_signed 43 d ds rest (Or.inl rfl) hdig hrest
        simp only [List.cons_append, if_neg (show ¬ (43 : Nat) = 45 by decide)] at h
        rw [h, clamp_long _ hmin hmax]
        simp
      · simp only [if_pos (rfl : ([45] : List Nat) = [45])] at hmin hmax ⊢
        simp only [parseLongValue, skipSpaces_replicate, List.cons_append, List.nil_append,
          skipSpaces_cons_ne 45 _ (by decide)]
        have h := strtol10_signed 45 d ds rest (Or.inr rfl) hdig hrest
        simp only [List.cons_append, if_pos (rfl : (45 : Nat) = 45)] at h
        rw [h, clamp_long _ hmin hmax]
        simp
  · intro strtol j s
    simp only [parseLongValue, skipSpaces_replicate]

/-- Witness for C15: two spaces, `-`, the digits `1 2` and then `X` parse to
-12. -/
theorem parseLongValue_decimal_witness :
    parseLongValue strtol10 (List.replicate 2 32 ++ ([45] ++ ([49, 50] ++ [88]))) =
      signedDecimalValue [45] [49, 50] :=
  (parseLongValue_decimal 2 [45] [49, 50] [88] (Or.inr (Or.inr rfl)) (by decide)
    (by decide) (by decide) (by decide) (by decide)).1

end Repetier
